import Mathlib

/-!
# Rule-builder core: shallow embedding and verification

This file embeds the core of the `rule-builder` repository in Lean 4 and
proves properties of it:

* the tree model (`Rule`, `RuleGroup`, `RuleItem`) from `src/types`;
* the structural editor (`addRuleToGroup`, `updateRule`, `updateGroup`,
  `deleteRule`, `deleteGroup`, `cloneRule`, `cloneRuleGroup`, `findRule`,
  `findGroup`, `moveItem`) from `src/utils/ruleUtils.ts`;
* the three compiler backends (`formatRuleGroupToReadableString`,
  `formatRuleGroupToSQL`, `formatRuleGroupToMongoDB`) and
  `canExportToFormat` from `src/utils/formatUtils.ts`;
* the validator (`validateRule`, `validateFieldValue`, `validateWithRules`,
  `validateRuleGroup`, `validateRuleStructure`) from
  `src/utils/validation.ts`;
* the bounded undo/redo history (`addToHistory`, `ruleBuilderReducer`)
  from `src/hooks/useRuleBuilder.ts`.

JavaScript runtime values stored in `rule.value` are modeled by the
inductive `Value` (the tree is JSON-round-trippable per the repository's
serialization contract, so only JSON values occur). Functions that depend
on ambient behavior that a pure embedding cannot capture (locale date
rendering, the system clock inside `toISOString`, `uuidv4`) are modeled
explicitly where they occur; each such model is documented at its
definition, and no theorem below depends on the modeled part beyond
totality. `uuidv4` is modeled by threading an id supply `gen : Nat → String`
with a counter, which is the standard shallow embedding of a fresh-name
source.
-/

/-- The two connectors, TS type `'and' | 'or'`. -/
inductive Combinator where
  | and
  | or
deriving DecidableEq, Repr

/-- A JSON runtime value as stored in `rule.value` (`any` in TS). `null`
also stands for `undefined`; every code path treats the two alike. -/
inductive Value where
  | str (s : String)
  | num (n : Int)
  | bool (b : Bool)
  | list (vs : List Value)
  | null

mutual
/-- JavaScript string conversion as performed by template literals and
`.toString()`: strings unchanged, numbers in decimal, booleans as
`true`/`false`, `null` as `"null"`, arrays joined by commas. -/
def jsToString : Value → String
  | .str s => s
  | .num n => toString n
  | .bool b => if b then "true" else "false"
  | .null => "null"
  | .list vs => String.intercalate "," (jsToStringList vs)
def jsToStringList : List Value → List String
  | [] => []
  | v :: vs => jsToString v :: jsToStringList vs
end

/-- JavaScript truthiness of a `Value` (`value ? … : …`). Arrays are
objects and always truthy. -/
def jsTruthy : Value → Bool
  | .str s => s ≠ ""
  | .num n => n ≠ 0
  | .bool b => b
  | .list _ => true
  | .null => false

/-- JavaScript strict equality `===` on `Value`s. Primitives compare by
value; arrays are objects and compare by reference, which for two values
read out of a plain JSON tree is `false`. -/
def jsStrictEq : Value → Value → Bool
  | .str a, .str b => a = b
  | .num a, .num b => a = b
  | .bool a, .bool b => a = b
  | .null, .null => true
  | _, _ => false

/-- Field types, TS `'string' | 'number' | 'date' | 'boolean' | 'select'`. -/
inductive FieldType where
  | string
  | number
  | date
  | boolean
  | select
deriving DecidableEq, Repr

/-- An option of a select field (`SelectOption` in `src/types`). -/
structure SelectOption where
  label : String
  value : Value

/-- Result of a custom validator: JS `boolean | string`. -/
inductive CustomResult where
  | bool (b : Bool)
  | str (m : String)

/-- `FieldValidation` from `src/types`. `pattern` models `RegExp.test` as a
string predicate and `custom` is the caller-supplied function, exactly as
the TS type stores them. -/
structure FieldValidation where
  required : Bool := false
  min : Option Int := none
  max : Option Int := none
  pattern : Option (String → Bool) := none
  custom : Option (Value → CustomResult) := none

/-- `FieldConfig` from `src/types` (the parts the core reads; UI-only
fields such as `apiConfig` and `inputComponent` are never consulted by the
functions embedded here). -/
structure FieldConfig where
  name : String
  label : String
  type : FieldType
  operators : Option (List String) := none
  options : Option (List SelectOption) := none
  validation : Option FieldValidation := none

/-- A condition leaf, `Rule` in `src/types`: `combinator` is the optional
per-edge connector to the next sibling. -/
structure Rule where
  id : String
  field : String
  operator : String
  value : Value
  combinator : Option Combinator := none

mutual
/-- `RuleGroup` from `src/types`: `negate` is the TS field `not`;
`individualCombinator` is the group's own per-edge connector to its next
sibling in the parent. -/
inductive RuleGroup where
  | mk (id : String) (combinator : Combinator) (rules : List RuleItem)
      (negate : Bool) (individualCombinator : Option Combinator)
/-- An element of a group's `rules` array, TS `Rule | RuleGroup`. The TS
code distinguishes the two shapes by `'field' in item` / `'rules' in item`,
which the two constructors make explicit. -/
inductive RuleItem where
  | rule (r : Rule)
  | group (g : RuleGroup)
end

def RuleGroup.id : RuleGroup → String
  | .mk i _ _ _ _ => i

def RuleGroup.combinator : RuleGroup → Combinator
  | .mk _ c _ _ _ => c

def RuleGroup.rules : RuleGroup → List RuleItem
  | .mk _ _ rs _ _ => rs

def RuleGroup.negate : RuleGroup → Bool
  | .mk _ _ _ n _ => n

def RuleGroup.individualCombinator : RuleGroup → Option Combinator
  | .mk _ _ _ _ ic => ic

/-- `item.id` as read uniformly on both item shapes. -/
def RuleItem.id : RuleItem → String
  | .rule r => r.id
  | .group g => g.id

instance : Inhabited RuleGroup := ⟨.mk "" .and [] false none⟩

@[simp] theorem RuleGroup.id_mk (i c rs n ic) :
    (RuleGroup.mk i c rs n ic).id = i := rfl

@[simp] theorem RuleGroup.combinator_mk (i c rs n ic) :
    (RuleGroup.mk i c rs n ic).combinator = c := rfl

@[simp] theorem RuleGroup.rules_mk (i c rs n ic) :
    (RuleGroup.mk i c rs n ic).rules = rs := rfl

@[simp] theorem RuleGroup.negate_mk (i c rs n ic) :
    (RuleGroup.mk i c rs n ic).negate = n := rfl

@[simp] theorem RuleGroup.individualCombinator_mk (i c rs n ic) :
    (RuleGroup.mk i c rs n ic).individualCombinator = ic := rfl

/-! ## Structural editor (`src/utils/ruleUtils.ts`) -/

mutual
/-- `addRuleToGroup` from `ruleUtils.ts`: append `rule` to the children of
the group whose id is `groupId`, rebuilding every group frame on the way. -/
def addRuleToGroup (rootGroup : RuleGroup) (groupId : String) (rule : Rule) :
    RuleGroup :=
  match rootGroup with
  | .mk i c rs n ic =>
    if i = groupId then .mk i c (rs ++ [.rule rule]) n ic
    else .mk i c (addRuleToGroupList rs groupId rule) n ic
/-- The `rules.map` of `addRuleToGroup`: rules returned as-is, groups
recursed into. -/
def addRuleToGroupList (items : List RuleItem) (groupId : String) (rule : Rule) :
    List RuleItem :=
  match items with
  | [] => []
  | .rule r :: rest => .rule r :: addRuleToGroupList rest groupId rule
  | .group g :: rest =>
      .group (addRuleToGroup g groupId rule) :: addRuleToGroupList rest groupId rule
end

mutual
/-- `addGroupToGroup` from `ruleUtils.ts`. -/
def addGroupToGroup (rootGroup : RuleGroup) (parentGroupId : String)
    (newGroup : RuleGroup) : RuleGroup :=
  match rootGroup with
  | .mk i c rs n ic =>
    if i = parentGroupId then .mk i c (rs ++ [.group newGroup]) n ic
    else .mk i c (addGroupToGroupList rs parentGroupId newGroup) n ic
/-- The `rules.map` of `addGroupToGroup`. -/
def addGroupToGroupList (items : List RuleItem) (parentGroupId : String)
    (newGroup : RuleGroup) : List RuleItem :=
  match items with
  | [] => []
  | .rule r :: rest => .rule r :: addGroupToGroupList rest parentGroupId newGroup
  | .group g :: rest =>
      .group (addGroupToGroup g parentGroupId newGroup) ::
        addGroupToGroupList rest parentGroupId newGroup
end

mutual
/-- `updateRule` from `ruleUtils.ts`: every rule item whose id is `ruleId`
is replaced by `updatedRule` wholesale (the TS code substitutes the whole
object, id included); groups are recursed into. -/
def updateRule (rootGroup : RuleGroup) (ruleId : String) (updatedRule : Rule) :
    RuleGroup :=
  match rootGroup with
  | .mk i c rs n ic => .mk i c (updateRuleList rs ruleId updatedRule) n ic
/-- The `rules.map` of `updateRule`. -/
def updateRuleList (items : List RuleItem) (ruleId : String) (updatedRule : Rule) :
    List RuleItem :=
  match items with
  | [] => []
  | .rule r :: rest =>
      (if r.id = ruleId then .rule updatedRule else .rule r) ::
        updateRuleList rest ruleId updatedRule
  | .group g :: rest =>
      .group (updateRule g ruleId updatedRule) :: updateRuleList rest ruleId updatedRule
end

/-- `Partial<RuleGroup>` as passed to `updateGroup`: a field is `none` when
the patch object does not carry that key. `negate` is the TS key `not`.
`rules` and `individualCombinator` replace the whole stored value when
present. -/
structure GroupPatch where
  id : Option String := none
  combinator : Option Combinator := none
  rules : Option (List RuleItem) := none
  negate : Option Bool := none
  individualCombinator : Option (Option Combinator) := none

/-- The object spread `{...rootGroup, ...updatedGroup, id: rootGroup.id}`:
present patch keys overwrite the group's fields, and then `id` is forced
back to the original (the TS code preserves the id even when the patch
carries one, so `p.id` is ignored here exactly as the spread result's `id`
key is overwritten). -/
def applyGroupPatch (g : RuleGroup) (p : GroupPatch) : RuleGroup :=
  match g with
  | .mk i c rs n ic =>
      .mk i (p.combinator.getD c) (p.rules.getD rs) (p.negate.getD n)
        (p.individualCombinator.getD ic)

mutual
/-- `updateGroup` from `ruleUtils.ts`: patch the group addressed by
`groupId`, preserving its id; elsewhere recurse. -/
def updateGroup (rootGroup : RuleGroup) (groupId : String) (p : GroupPatch) :
    RuleGroup :=
  match rootGroup with
  | .mk i c rs n ic =>
    if i = groupId then applyGroupPatch (.mk i c rs n ic) p
    else .mk i c (updateGroupList rs groupId p) n ic
/-- The `rules.map` of `updateGroup`. -/
def updateGroupList (items : List RuleItem) (groupId : String) (p : GroupPatch) :
    List RuleItem :=
  match items with
  | [] => []
  | .rule r :: rest => .rule r :: updateGroupList rest groupId p
  | .group g :: rest => .group (updateGroup g groupId p) :: updateGroupList rest groupId p
end

mutual
/-- `deleteRule` from `ruleUtils.ts`. The TS code first filters out rule
items whose id is `ruleId` and then maps over the survivors recursing into
groups; the filter touches only rule items and the map only group items,
so the two passes are fused into one walk here. -/
def deleteRule (rootGroup : RuleGroup) (ruleId : String) : RuleGroup :=
  match rootGroup with
  | .mk i c rs n ic => .mk i c (deleteRuleList rs ruleId) n ic
/-- The fused filter-and-map of `deleteRule`. -/
def deleteRuleList (items : List RuleItem) (ruleId : String) : List RuleItem :=
  match items with
  | [] => []
  | .rule r :: rest =>
      if r.id = ruleId then deleteRuleList rest ruleId
      else .rule r :: deleteRuleList rest ruleId
  | .group g :: rest => .group (deleteRule g ruleId) :: deleteRuleList rest ruleId
end

mutual
/-- `deleteGroup` from `ruleUtils.ts`: deleting the root is a no-op; the
filter-then-map of the TS code is fused into one walk as in `deleteRule`. -/
def deleteGroup (rootGroup : RuleGroup) (groupId : String) : RuleGroup :=
  match rootGroup with
  | .mk i c rs n ic =>
    if i = groupId then .mk i c rs n ic
    else .mk i c (deleteGroupList rs groupId) n ic
/-- The fused filter-and-map of `deleteGroup`. -/
def deleteGroupList (items : List RuleItem) (groupId : String) : List RuleItem :=
  match items with
  | [] => []
  | .rule r :: rest => .rule r :: deleteGroupList rest groupId
  | .group g :: rest =>
      if g.id = groupId then deleteGroupList rest groupId
      else .group (deleteGroup g groupId) :: deleteGroupList rest groupId
end

/-- `cloneRule` from `ruleUtils.ts`: copy the rule with a fresh id.
`uuidv4()` is modeled by the id supply `gen` at counter `k`; the next
counter value is returned alongside. -/
def cloneRule (gen : Nat → String) (k : Nat) (r : Rule) : Rule × Nat :=
  ({ r with id := gen k }, k + 1)

mutual
/-- `cloneRuleGroup` from `ruleUtils.ts`: fresh id for the group (drawn
first, as the TS object literal evaluates `id: uuidv4()` before mapping
`rules`), then each child cloned recursively left to right. -/
def cloneRuleGroup (gen : Nat → String) (k : Nat) : RuleGroup → RuleGroup × Nat
  | .mk _ c rs n ic =>
      let res := cloneRuleGroupList gen (k + 1) rs
      (.mk (gen k) c res.1 n ic, res.2)
/-- The `rules.map` of `cloneRuleGroup`, threading the id counter. -/
def cloneRuleGroupList (gen : Nat → String) (k : Nat) :
    List RuleItem → List RuleItem × Nat
  | [] => ([], k)
  | .rule r :: rest =>
      let hd := cloneRule gen k r
      let tl := cloneRuleGroupList gen hd.2 rest
      (.rule hd.1 :: tl.1, tl.2)
  | .group g :: rest =>
      let hd := cloneRuleGroup gen k g
      let tl := cloneRuleGroupList gen hd.2 rest
      (.group hd.1 :: tl.1, tl.2)
end

mutual
/-- `findRule` from `ruleUtils.ts`: first rule item with the given id, in
left-to-right depth-first order. -/
def findRule (rootGroup : RuleGroup) (ruleId : String) : Option Rule :=
  match rootGroup with
  | .mk _ _ rs _ _ => findRuleList rs ruleId
/-- The loop of `findRule` over a `rules` array. -/
def findRuleList (items : List RuleItem) (ruleId : String) : Option Rule :=
  match items with
  | [] => none
  | .rule r :: rest => if r.id = ruleId then some r else findRuleList rest ruleId
  | .group g :: rest =>
      match findRule g ruleId with
      | some found => some found
      | none => findRuleList rest ruleId
end

mutual
/-- `findGroup` from `ruleUtils.ts`: the root itself when its id matches,
else the first matching descendant group. -/
def findGroup (rootGroup : RuleGroup) (groupId : String) : Option RuleGroup :=
  match rootGroup with
  | .mk i c rs n ic =>
    if i = groupId then some (.mk i c rs n ic) else findGroupList rs groupId
/-- The loop of `findGroup` over a `rules` array (rule items skipped). -/
def findGroupList (items : List RuleItem) (groupId : String) : Option RuleGroup :=
  match items with
  | [] => none
  | .rule _ :: rest => findGroupList rest groupId
  | .group g :: rest =>
      match findGroup g groupId with
      | some found => some found
      | none => findGroupList rest groupId
end

/-- The `findIndex` + `filter(index ≠ itemIndex)` pair inside `moveItem`'s
`removeItem`, as one pass: the first item with the given id together with
the list without it, or `none` when no item at this level matches. -/
def removeFirstItem (itemId : String) : List RuleItem → Option (RuleItem × List RuleItem)
  | [] => none
  | x :: rest =>
      if x.id = itemId then some (x, rest)
      else
        match removeFirstItem itemId rest with
        | some found => some (found.1, x :: found.2)
        | none => none

mutual
/-- `removeItem` inside `moveItem`: when an item at this level matches, it
is removed and recorded (overwriting any previously recorded item, as the
TS closure variable `itemToMove` would be); otherwise every child group is
recursed into, threading the record left to right. -/
def removeItem (itemId : String) (acc : Option RuleItem) :
    RuleGroup → RuleGroup × Option RuleItem
  | .mk i c rs n ic =>
    match removeFirstItem itemId rs with
    | some found => (.mk i c found.2 n ic, some found.1)
    | none =>
        let res := removeItemList itemId acc rs
        (.mk i c res.1 n ic, res.2)
/-- The `rules.map` of `removeItem`. -/
def removeItemList (itemId : String) (acc : Option RuleItem) :
    List RuleItem → List RuleItem × Option RuleItem
  | [] => ([], acc)
  | .rule r :: rest =>
      let res := removeItemList itemId acc rest
      (.rule r :: res.1, res.2)
  | .group g :: rest =>
      let hd := removeItem itemId acc g
      let res := removeItemList itemId hd.2 rest
      (.group hd.1 :: res.1, res.2)
end

mutual
/-- `addItemToTarget` inside `moveItem`: splice the item into the target
group's children at `targetIndex` (a `splice` insertion clamps an index
past the end to the end, which `take`/`drop` reproduce; negative indices
do not occur in the callers and are not modeled). -/
def addItemToTarget (targetGroupId : String) (targetIndex : Nat)
    (itemToMove : RuleItem) : RuleGroup → RuleGroup
  | .mk i c rs n ic =>
    if i = targetGroupId then
      .mk i c (rs.take targetIndex ++ [itemToMove] ++ rs.drop targetIndex) n ic
    else .mk i c (addItemToTargetList targetGroupId targetIndex itemToMove rs) n ic
/-- The `rules.map` of `addItemToTarget`. -/
def addItemToTargetList (targetGroupId : String) (targetIndex : Nat)
    (itemToMove : RuleItem) : List RuleItem → List RuleItem
  | [] => []
  | .rule r :: rest => .rule r :: addItemToTargetList targetGroupId targetIndex itemToMove rest
  | .group g :: rest =>
      .group (addItemToTarget targetGroupId targetIndex itemToMove g) ::
        addItemToTargetList targetGroupId targetIndex itemToMove rest
end

/-- `moveItem` from `ruleUtils.ts`: remove the item wherever it occurs,
then insert it into the target group; when the item is not found the
original tree is returned. There is no check that the target still exists
after removal, nor any cycle check. -/
def moveItem (rootGroup : RuleGroup) (itemId : String) (targetGroupId : String)
    (targetIndex : Nat) : RuleGroup :=
  let res := removeItem itemId none rootGroup
  match res.2 with
  | none => rootGroup
  | some itemToMove => addItemToTarget targetGroupId targetIndex itemToMove res.1

mutual
/-- `countRules` from `ruleUtils.ts`: number of condition leaves. -/
def countRules : RuleGroup → Nat
  | .mk _ _ rs _ _ => countRulesList rs
/-- The `reduce` of `countRules`. -/
def countRulesList : List RuleItem → Nat
  | [] => 0
  | .rule _ :: rest => countRulesList rest + 1
  | .group g :: rest => countRulesList rest + countRules g
end

mutual
/-- `countGroups` from `ruleUtils.ts`: number of group nodes, the root
included. -/
def countGroups : RuleGroup → Nat
  | .mk _ _ rs _ _ => 1 + countGroupsList rs
/-- The `reduce` of `countGroups`. -/
def countGroupsList : List RuleItem → Nat
  | [] => 0
  | .rule _ :: rest => countGroupsList rest
  | .group g :: rest => countGroupsList rest + countGroups g
end

/-- `isEmptyRuleTree` from `ruleUtils.ts`. -/
def isEmptyRuleTree (group : RuleGroup) : Bool :=
  countRules group = 0

/-! ## Compiler backends (`src/utils/formatUtils.ts`) -/

/-- The operator-label table `labels` in `getOperatorLabel`. -/
def operatorLabels : List (String × String) :=
  [("equals", "equals"), ("notEquals", "does not equal"),
   ("contains", "contains"), ("startsWith", "starts with"),
   ("endsWith", "ends with"), ("isEmpty", "is empty"),
   ("isNotEmpty", "is not empty"), (">", "is greater than"),
   (">=", "is greater than or equal to"), ("<", "is less than"),
   ("<=", "is less than or equal to"), ("between", "is between"),
   ("notBetween", "is not between"), ("before", "is before"),
   ("after", "is after"), ("isTrue", "is true"), ("isFalse", "is false"),
   ("in", "is in"), ("notIn", "is not in")]

/-- `getOperatorLabel` from `formatUtils.ts`: `labels[operator] || operator`
(every stored label is a non-empty string, so `||` is plain lookup-with-
fallback). -/
def getOperatorLabel (operator : String) : String :=
  match operatorLabels.find? (fun e => e.1 = operator) with
  | some e => e.2
  | none => operator

/-- The operators that render without a value, both in the readable
formatter and in the validator. -/
def operatorsWithoutValue : List String :=
  ["isEmpty", "isNotEmpty", "isTrue", "isFalse"]

/-- `field?.type === t` for an optional field lookup result. -/
def fieldTypeIs (field : Option FieldConfig) (t : FieldType) : Bool :=
  match field with
  | some f => f.type = t
  | none => false

/-- Model of `new Date(value).toLocaleDateString()` in the readable
formatter. Locale rendering depends on the host environment and is not
representable in a pure embedding; it is modeled as the underlying string
rendering of the value. No theorem below depends on this function's
output. -/
def jsDateToLocaleDateString (v : Value) : String :=
  jsToString v

/-- Model of `new Date(value).toISOString().split('T')[0]` in
`formatSQLValue`. For the date strings the UI stores (already in
`YYYY-MM-DD` form) the TS expression returns the date part unchanged; it
is modeled as the string rendering of the value. No theorem below depends
on this function's output. -/
def jsDateToISODate (v : Value) : String :=
  jsToString v

/-- `formatRuleToReadableString` from `formatUtils.ts`. -/
def formatRuleToReadableString (rule : Rule) (fields : List FieldConfig) : String :=
  let field := fields.find? (fun f => f.name = rule.field)
  let fieldLabel :=
    match field with
    | some f => if f.label = "" then rule.field else f.label
    | none => rule.field
  if rule.operator ∈ operatorsWithoutValue then
    fieldLabel ++ " " ++ getOperatorLabel rule.operator
  else
    let formattedValue :=
      if fieldTypeIs field .string && (match rule.value with | .str _ => true | _ => false) then
        "\"" ++ jsToString rule.value ++ "\""
      else if fieldTypeIs field .date then
        jsDateToLocaleDateString rule.value
      else if fieldTypeIs field .select && (field.bind (·.options)).isSome then
        match (field.bind (·.options)).getD [] |>.find? (fun opt => jsStrictEq opt.value rule.value) with
        | some opt => "\"" ++ opt.label ++ "\""
        | none => jsToString rule.value
      else jsToString rule.value
    fieldLabel ++ " " ++ getOperatorLabel rule.operator ++ " " ++ formattedValue

/-- The `.replace(/'/g, "''")` of `formatSQLValue`: double every embedded
single quote. The regex pattern is a single character, so a character-wise
pass is exactly the global replace. -/
def doubleSingleQuotes (s : String) : String :=
  String.join (s.toList.map (fun c => if c = sqChar then "''" else c.toString))
where
  sqChar : Char := Char.ofNat 39

/-- `formatSQLValue` from `formatUtils.ts`. The branches are taken in
source order: `null`, string (by field type or by runtime type, quoted
with embedded quotes doubled), date, boolean (rendered from the value's
truthiness), and finally `toString`. `value instanceof Date` is always
false for JSON tree values and is dropped. -/
def formatSQLValue (value : Value) (field : Option FieldConfig) : String :=
  match value with
  | .null => "NULL"
  | v =>
    if fieldTypeIs field .string || (match v with | .str _ => true | _ => false) then
      "'" ++ doubleSingleQuotes (jsToString v) ++ "'"
    else if fieldTypeIs field .date then
      "'" ++ jsDateToISODate v ++ "'"
    else if fieldTypeIs field .boolean || (match v with | .bool _ => true | _ => false) then
      if jsTruthy v then "TRUE" else "FALSE"
    else jsToString v

/-- `formatRuleToSQL` from `formatUtils.ts`: the operator-to-fragment
switch. -/
def formatRuleToSQL (rule : Rule) (fields : List FieldConfig) : String :=
  let field := fields.find? (fun f => f.name = rule.field)
  let fieldName := rule.field
  match rule.operator with
  | "equals" => fieldName ++ " = " ++ formatSQLValue rule.value field
  | "notEquals" => fieldName ++ " != " ++ formatSQLValue rule.value field
  | "contains" =>
      fieldName ++ " LIKE " ++ formatSQLValue (.str ("%" ++ jsToString rule.value ++ "%")) field
  | "startsWith" =>
      fieldName ++ " LIKE " ++ formatSQLValue (.str (jsToString rule.value ++ "%")) field
  | "endsWith" =>
      fieldName ++ " LIKE " ++ formatSQLValue (.str ("%" ++ jsToString rule.value)) field
  | "isEmpty" => "(" ++ fieldName ++ " IS NULL OR " ++ fieldName ++ " = '')"
  | "isNotEmpty" => "(" ++ fieldName ++ " IS NOT NULL AND " ++ fieldName ++ " != '')"
  | ">" => fieldName ++ " > " ++ formatSQLValue rule.value field
  | ">=" => fieldName ++ " >= " ++ formatSQLValue rule.value field
  | "<" => fieldName ++ " < " ++ formatSQLValue rule.value field
  | "<=" => fieldName ++ " <= " ++ formatSQLValue rule.value field
  | "between" =>
      match rule.value with
      | .list [a, b] =>
          fieldName ++ " BETWEEN " ++ formatSQLValue a field ++ " AND " ++ formatSQLValue b field
      | _ => fieldName ++ " = " ++ formatSQLValue rule.value field
  | "notBetween" =>
      match rule.value with
      | .list [a, b] =>
          fieldName ++ " NOT BETWEEN " ++ formatSQLValue a field ++ " AND " ++ formatSQLValue b field
      | _ => fieldName ++ " != " ++ formatSQLValue rule.value field
  | "before" => fieldName ++ " < " ++ formatSQLValue rule.value field
  | "after" => fieldName ++ " > " ++ formatSQLValue rule.value field
  | "isTrue" => fieldName ++ " = TRUE"
  | "isFalse" => fieldName ++ " = FALSE"
  | "in" =>
      match rule.value with
      | .list vs =>
          fieldName ++ " IN (" ++
            String.intercalate ", " (vs.map (fun v => formatSQLValue v field)) ++ ")"
      | _ => fieldName ++ " = " ++ formatSQLValue rule.value field
  | "notIn" =>
      match rule.value with
      | .list vs =>
          fieldName ++ " NOT IN (" ++
            String.intercalate ", " (vs.map (fun v => formatSQLValue v field)) ++ ")"
      | _ => fieldName ++ " != " ++ formatSQLValue rule.value field
  | _ => fieldName ++ " = " ++ formatSQLValue rule.value field

/-- The per-edge connector slot of an item: `combinator` on a rule,
`individualCombinator` on a group (both read by every group formatter). -/
def RuleItem.edgeCombinator : RuleItem → Option Combinator
  | .rule r => r.combinator
  | .group g => g.individualCombinator

/-- The connector the spec says is applied between child `i` and child
`i+1` of a group: the `edgeCombinator` of child `i` when present,
otherwise the parent group's `combinator`. In the TS code this appears as
`rule.combinator || group.combinator` and
`rule.individualCombinator || group.combinator`. -/
def effectiveConnector (left : RuleItem) (parent : Combinator) : Combinator :=
  (left.edgeCombinator).getD parent

/-- `.toUpperCase()` of a connector as stored (`'and'`/`'or'`). -/
def Combinator.upper : Combinator → String
  | .and => "AND"
  | .or => "OR"

mutual
/-- `formatRuleGroupToReadableString` from `formatUtils.ts`: empty child
list renders as `""`; otherwise the pushed parts are joined and wrapped in
`NOT (...)` when the group's `not` flag is set. -/
def formatRuleGroupToReadableString (group : RuleGroup) (fields : List FieldConfig) :
    String :=
  match group with
  | .mk _ gc rs n _ =>
    if rs.isEmpty then ""
    else
      let result := String.join (readableParts fields gc rs)
      if n then "NOT (" ++ result ++ ")" else result
/-- The `ruleString` computed for one child inside the readable loop: a
rule rendered by the leaf renderer, a nested group rendered recursively
and parenthesized unless empty. -/
def readableItemString (fields : List FieldConfig) : RuleItem → String
  | .rule r => formatRuleToReadableString r fields
  | .group g =>
      let nested := formatRuleGroupToReadableString g fields
      if nested = "" then "" else "(" ++ nested ++ ")"
/-- The loop body of `formatRuleGroupToReadableString`: the strings pushed
onto `ruleStrings`. A child whose rendering is empty pushes nothing (and
no connector); a child with a non-empty rendering pushes it, followed by
the connector whenever the child is not at the last index of the array. -/
def readableParts (fields : List FieldConfig) (gc : Combinator) :
    List RuleItem → List String
  | [] => []
  | x :: rest =>
      let ruleString := readableItemString fields x
      if ruleString = "" then readableParts fields gc rest
      else if rest.isEmpty then [ruleString]
      else
        ruleString :: (" " ++ (effectiveConnector x gc).upper ++ " ") ::
          readableParts fields gc rest
end

mutual
/-- `formatRuleGroupToSQL` from `formatUtils.ts`; same traversal shape as
the readable formatter. -/
def formatRuleGroupToSQL (group : RuleGroup) (fields : List FieldConfig) : String :=
  match group with
  | .mk _ gc rs n _ =>
    if rs.isEmpty then ""
    else
      let result := String.join (sqlParts fields gc rs)
      if n then "NOT (" ++ result ++ ")" else result
/-- The `sqlPart` computed for one child inside the SQL loop. -/
def sqlItemString (fields : List FieldConfig) : RuleItem → String
  | .rule r => formatRuleToSQL r fields
  | .group g =>
      let nested := formatRuleGroupToSQL g fields
      if nested = "" then "" else "(" ++ nested ++ ")"
/-- The loop body of `formatRuleGroupToSQL`: the strings pushed onto
`sqlParts`. -/
def sqlParts (fields : List FieldConfig) (gc : Combinator) :
    List RuleItem → List String
  | [] => []
  | x :: rest =>
      let sqlPart := sqlItemString fields x
      if sqlPart = "" then sqlParts fields gc rest
      else if rest.isEmpty then [sqlPart]
      else
        sqlPart :: (" " ++ (effectiveConnector x gc).upper ++ " ") ::
          sqlParts fields gc rest
end

/-- A MongoDB query value: the JS objects built by the Mongo backend.
`date` models `new Date(value)` as constructed by the `before`/`after`
branches; `arr`/`obj` are JS arrays/objects; the remaining constructors
embed the tree's JSON values. -/
inductive MVal where
  | null
  | bool (b : Bool)
  | num (n : Int)
  | str (s : String)
  | date (v : Value)
  | arr (xs : List MVal)
  | obj (fields : List (String × MVal))

mutual
/-- Embedding of a tree `Value` into a Mongo query value. -/
def Value.toMVal : Value → MVal
  | .str s => .str s
  | .num n => .num n
  | .bool b => .bool b
  | .null => .null
  | .list vs => .arr (Value.toMValList vs)
/-- `Value.toMVal` mapped over a list. -/
def Value.toMValList : List Value → List MVal
  | [] => []
  | v :: vs => v.toMVal :: Value.toMValList vs
end

/-- `Object.keys(query).length > 0`: the Mongo backends only ever build
objects, so this is non-emptiness of the field list. -/
def MVal.isNonEmptyObj : MVal → Bool
  | .obj fields => !fields.isEmpty
  | _ => true

/-- `escapeRegex` from `formatUtils.ts`: backslash-escape every regex
special character (the TS replace `/[.*+?^${}()|[\]\\]/g` with `'\\$&'`),
character by character. -/
def escapeRegex (s : String) : String :=
  String.join (s.toList.map (fun c =>
    if c ∈ [chr46, chr42, chr43, chr63, chr94, chr36, chr123, chr125,
            chr40, chr41, chr124, chr91, chr93, chr92] then
      "\\" ++ c.toString
    else c.toString))
where
  chr46 : Char := Char.ofNat 46
  chr42 : Char := Char.ofNat 42
  chr43 : Char := Char.ofNat 43
  chr63 : Char := Char.ofNat 63
  chr94 : Char := Char.ofNat 94
  chr36 : Char := Char.ofNat 36
  chr123 : Char := Char.ofNat 123
  chr125 : Char := Char.ofNat 125
  chr40 : Char := Char.ofNat 40
  chr41 : Char := Char.ofNat 41
  chr124 : Char := Char.ofNat 124
  chr91 : Char := Char.ofNat 91
  chr93 : Char := Char.ofNat 93
  chr92 : Char := Char.ofNat 92

/-- `formatRuleToMongoDB` from `formatUtils.ts`: the operator-to-query
switch. Every branch returns an object with exactly one key (so a rule's
query is never the empty object). -/
def formatRuleToMongoDB (rule : Rule) (_fields : List FieldConfig) : MVal :=
  let fieldName := rule.field
  match rule.operator with
  | "equals" => .obj [(fieldName, rule.value.toMVal)]
  | "notEquals" => .obj [(fieldName, .obj [("$ne", rule.value.toMVal)])]
  | "contains" =>
      .obj [(fieldName, .obj [("$regex", rule.value.toMVal), ("$options", .str "i")])]
  | "startsWith" =>
      .obj [(fieldName, .obj [("$regex", .str ("^" ++ escapeRegex (jsToString rule.value))),
                              ("$options", .str "i")])]
  | "endsWith" =>
      .obj [(fieldName, .obj [("$regex", .str (escapeRegex (jsToString rule.value) ++ "$")),
                              ("$options", .str "i")])]
  | "isEmpty" =>
      .obj [("$or", .arr [.obj [(fieldName, .null)], .obj [(fieldName, .str "")]])]
  | "isNotEmpty" =>
      .obj [("$and", .arr [.obj [(fieldName, .obj [("$ne", .null)])],
                           .obj [(fieldName, .obj [("$ne", .str "")])]])]
  | ">" => .obj [(fieldName, .obj [("$gt", rule.value.toMVal)])]
  | ">=" => .obj [(fieldName, .obj [("$gte", rule.value.toMVal)])]
  | "<" => .obj [(fieldName, .obj [("$lt", rule.value.toMVal)])]
  | "<=" => .obj [(fieldName, .obj [("$lte", rule.value.toMVal)])]
  | "between" =>
      match rule.value with
      | .list [a, b] => .obj [(fieldName, .obj [("$gte", a.toMVal), ("$lte", b.toMVal)])]
      | _ => .obj [(fieldName, rule.value.toMVal)]
  | "notBetween" =>
      match rule.value with
      | .list [a, b] =>
          .obj [("$or", .arr [.obj [(fieldName, .obj [("$lt", a.toMVal)])],
                              .obj [(fieldName, .obj [("$gt", b.toMVal)])]])]
      | _ => .obj [(fieldName, .obj [("$ne", rule.value.toMVal)])]
  | "before" => .obj [(fieldName, .obj [("$lt", .date rule.value)])]
  | "after" => .obj [(fieldName, .obj [("$gt", .date rule.value)])]
  | "isTrue" => .obj [(fieldName, .bool true)]
  | "isFalse" => .obj [(fieldName, .bool false)]
  | "in" =>
      match rule.value with
      | .list vs => .obj [(fieldName, .obj [("$in", (Value.list vs).toMVal)])]
      | v => .obj [(fieldName, .obj [("$in", .arr [v.toMVal])])]
  | "notIn" =>
      match rule.value with
      | .list vs => .obj [(fieldName, .obj [("$nin", (Value.list vs).toMVal)])]
      | v => .obj [(fieldName, .obj [("$nin", .arr [v.toMVal])])]
  | _ => .obj [(fieldName, rule.value.toMVal)]

/-- `'and' → '$and'`, `'or' → '$or'`. -/
def Combinator.mongoOp : Combinator → String
  | .and => "$and"
  | .or => "$or"

mutual
/-- `formatRuleGroupToMongoDB` from `formatUtils.ts`. An empty child list
(or one whose children all render to empty objects) yields `{}` before the
`not` wrap is reached. One collected query is returned as-is; two or more
are wrapped in a single `$and`/`$or`: the shared connector when all
collected connectors agree, the group's own `combinator` otherwise (the
documented mixed-connector fallback). The `[]` connector case mirrors
`combinators.every` being vacuously true and `undefined === 'and'` being
false, and is unreachable when two or more queries were collected. -/
def formatRuleGroupToMongoDB (group : RuleGroup) (fields : List FieldConfig) : MVal :=
  match group with
  | .mk _ gc rs n _ =>
    if rs.isEmpty then .obj []
    else
      let collected := mongoCollect fields gc rs
      match collected.1 with
      | [] => .obj []
      | [q] => if n then .obj [("$not", q)] else q
      | qs =>
          let result :=
            match collected.2 with
            | [] => MVal.obj [("$or", .arr qs)]
            | c0 :: _ =>
                if collected.2.all (fun c => c = c0) then .obj [(c0.mongoOp, .arr qs)]
                else .obj [(gc.mongoOp, .arr qs)]
          if n then .obj [("$not", result)] else result
/-- The `query` computed for one child inside the Mongo loop. -/
def mongoItemQuery (fields : List FieldConfig) : RuleItem → MVal
  | .rule r => formatRuleToMongoDB r fields
  | .group g => formatRuleGroupToMongoDB g fields
/-- The loop of `formatRuleGroupToMongoDB`: the collected non-empty child
queries together with the connectors recorded for every collected child
that is not at the last index of the array. -/
def mongoCollect (fields : List FieldConfig) (gc : Combinator) :
    List RuleItem → List MVal × List Combinator
  | [] => ([], [])
  | x :: rest =>
      let query := mongoItemQuery fields x
      let tl := mongoCollect fields gc rest
      if query.isNonEmptyObj then
        (query :: tl.1,
         if rest.isEmpty then tl.2 else effectiveConnector x gc :: tl.2)
      else tl
end

/-- The export formats accepted by `canExportToFormat`. -/
inductive ExportFormat where
  | sql
  | mongodb
  | readable
deriving DecidableEq, Repr

/-- `canExportToFormat` from `formatUtils.ts`: false exactly when the
group's own `rules` array is empty; the format argument is not consulted. -/
def canExportToFormat (group : RuleGroup) (_format : ExportFormat) : Bool :=
  !group.rules.isEmpty

/-! ## Validator (`src/utils/validation.ts`) -/

/-- Finding severities, TS `'error' | 'warning' | 'info'`. -/
inductive Severity where
  | error
  | warning
  | info
deriving DecidableEq, Repr

/-- Finding kinds, TS `'field' | 'rule' | 'group' | 'schema'`. -/
inductive FindingKind where
  | field
  | rule
  | group
  | schema
deriving DecidableEq, Repr

/-- `ValidationError` from `src/types`. -/
structure ValidationError where
  id : String
  type : FindingKind
  severity : Severity
  message : String
  path : List String
  suggestions : Option (List String) := none

/-- The TS names of the field types, as interpolated into messages. -/
def FieldType.tsName : FieldType → String
  | .string => "string"
  | .number => "number"
  | .date => "date"
  | .boolean => "boolean"
  | .select => "select"

/-- `value === null || value === undefined || value === ''`, the
missing-value test used by `validateRule` and `validateWithRules`. -/
def isNullOrEmptyString : Value → Bool
  | .null => true
  | .str s => s = ""
  | _ => false

/-- A trimmed, optionally signed decimal numeral (digits with at most one
decimal point), as a character list. -/
def isSignedDecimalChars (cs : List Char) : Bool :=
  let cs1 :=
    match cs with
    | c :: rest => if c = Char.ofNat 45 || c = Char.ofNat 43 then rest else cs
    | [] => cs
  match cs1.splitOn (Char.ofNat 46) with
  | [a] => !a.isEmpty && a.all Char.isDigit
  | [a, b] => !(a ++ b).isEmpty && (a ++ b).all Char.isDigit
  | _ => false

/-- Model of `isNaN(Number(value))` in the number branch of
`validateFieldValue`. Numbers and booleans coerce to numbers, `null` to 0;
strings (and arrays, which first coerce through their joined string) are
NaN unless blank (which coerces to 0) or a signed decimal numeral.
Hexadecimal and exponent forms, which `Number` also accepts, are not
modeled; no theorem below depends on this function beyond totality. -/
def jsNumberIsNaN : Value → Bool
  | .num _ => false
  | .bool _ => false
  | .null => false
  | .str s =>
      let t := ((s.toList.dropWhile Char.isWhitespace).reverse.dropWhile
        Char.isWhitespace).reverse
      if t.isEmpty then false else !isSignedDecimalChars t
  | .list vs =>
      let t := (((jsToString (.list vs)).toList.dropWhile Char.isWhitespace).reverse.dropWhile
        Char.isWhitespace).reverse
      if t.isEmpty then false else !isSignedDecimalChars t

/-- A `YYYY-MM-DD`-shaped string: three non-empty all-digit runs joined by
dashes. -/
def isYMDString (s : String) : Bool :=
  match s.toList.splitOn (Char.ofNat 45) with
  | [y, m, d] => !y.isEmpty && !m.isEmpty && !d.isEmpty && (y ++ m ++ d).all Char.isDigit
  | _ => false

/-- Model of `isNaN(new Date(value).getTime())` in the date branch of
`validateFieldValue`. Numbers, booleans and `null` produce valid epoch
dates; the UI stores date values as `YYYY-MM-DD` strings and the model
accepts exactly that shape, treating other strings and arrays as invalid.
No theorem below depends on this function beyond totality. -/
def jsDateIsInvalid : Value → Bool
  | .num _ => false
  | .bool _ => false
  | .null => false
  | .str s => !isYMDString s
  | .list _ => true

/-- `validateWithRules` from `validation.ts`: required, min/max (numeric
value or string length), pattern (strings only), and the custom validator
(an error whenever its result is not `true`, with the result itself as the
message when it is a string). -/
def validateWithRules (value : Value) (validation : FieldValidation)
    (ruleId : String) : List ValidationError :=
  (if validation.required && isNullOrEmptyString value then
    [{ id := ruleId ++ "-required", type := .field, severity := .error,
       message := "This field is required", path := [ruleId, "value"] }]
   else []) ++
  (match validation.min with
   | some m =>
      match value with
      | .num n =>
          if n < m then
            [{ id := ruleId ++ "-min", type := .field, severity := .error,
               message := "Value must be at least " ++ toString m,
               path := [ruleId, "value"] }]
          else []
      | .str s =>
          if (s.length : Int) < m then
            [{ id := ruleId ++ "-min-length", type := .field, severity := .error,
               message := "Value must be at least " ++ toString m ++ " characters",
               path := [ruleId, "value"] }]
          else []
      | _ => []
   | none => []) ++
  (match validation.max with
   | some m =>
      match value with
      | .num n =>
          if m < n then
            [{ id := ruleId ++ "-max", type := .field, severity := .error,
               message := "Value must be at most " ++ toString m,
               path := [ruleId, "value"] }]
          else []
      | .str s =>
          if m < (s.length : Int) then
            [{ id := ruleId ++ "-max-length", type := .field, severity := .error,
               message := "Value must be at most " ++ toString m ++ " characters",
               path := [ruleId, "value"] }]
          else []
      | _ => []
   | none => []) ++
  (match validation.pattern, value with
   | some p, .str s =>
      if !p s then
        [{ id := ruleId ++ "-pattern", type := .field, severity := .error,
           message := "Value does not match the required format",
           path := [ruleId, "value"] }]
      else []
   | _, _ => []) ++
  (match validation.custom with
   | some f =>
      match f value with
      | .bool true => []
      | .bool false =>
          [{ id := ruleId ++ "-custom", type := .field, severity := .error,
             message := "Value is invalid", path := [ruleId, "value"] }]
      | .str m =>
          [{ id := ruleId ++ "-custom", type := .field, severity := .error,
             message := m, path := [ruleId, "value"] }]
   | none => [])

/-- `validateFieldValue` from `validation.ts`: the type-specific check
followed by the custom validation rules. -/
def validateFieldValue (value : Value) (field : FieldConfig) (ruleId : String) :
    List ValidationError :=
  (match field.type with
   | .string =>
      match value with
      | .str _ => []
      | _ => [{ id := ruleId ++ "-value-type", type := .field, severity := .error,
                message := "Value must be a string", path := [ruleId, "value"] }]
   | .number =>
      if jsNumberIsNaN value then
        [{ id := ruleId ++ "-value-type", type := .field, severity := .error,
           message := "Value must be a valid number", path := [ruleId, "value"] }]
      else []
   | .date =>
      if jsDateIsInvalid value then
        [{ id := ruleId ++ "-value-type", type := .field, severity := .error,
           message := "Value must be a valid date", path := [ruleId, "value"] }]
      else []
   | .boolean =>
      match value with
      | .bool _ => []
      | _ => [{ id := ruleId ++ "-value-type", type := .field, severity := .error,
                message := "Value must be true or false", path := [ruleId, "value"] }]
   | .select =>
      match field.options with
      | some opts =>
          if !opts.any (fun opt => jsStrictEq opt.value value) then
            [{ id := ruleId ++ "-value-option", type := .field, severity := .error,
               message := "Value must be one of the available options",
               path := [ruleId, "value"],
               suggestions := some ((opts.map (fun opt => "\"" ++ opt.label ++ "\"")).take 3) }]
          else []
      | none => []) ++
  (match field.validation with
   | some v => validateWithRules value v ruleId
   | none => [])

/-- `validateRule` from `validation.ts`: unknown field stops further
checks; otherwise operator compatibility, missing value, and the
type/format checks, in source order. -/
def validateRule (rule : Rule) (fields : List FieldConfig) : List ValidationError :=
  match fields.find? (fun f => f.name = rule.field) with
  | none =>
      [{ id := rule.id ++ "-field", type := .rule, severity := .error,
         message := "Field \"" ++ rule.field ++ "\" does not exist",
         path := [rule.id, "field"],
         suggestions := some ["Select a valid field from the dropdown"] }]
  | some field =>
      let validOperators := field.operators.getD []
      (if !validOperators.isEmpty && !validOperators.contains rule.operator then
        [{ id := rule.id ++ "-operator", type := .rule, severity := .error,
           message := "Operator \"" ++ rule.operator ++ "\" is not valid for field type \""
             ++ field.type.tsName ++ "\"",
           path := [rule.id, "operator"],
           suggestions := some ["Valid operators: " ++ String.intercalate ", " validOperators] }]
       else []) ++
      (if !operatorsWithoutValue.contains rule.operator && isNullOrEmptyString rule.value then
        [{ id := rule.id ++ "-value", type := .rule, severity := .error,
           message := "Value is required for this operator",
           path := [rule.id, "value"],
           suggestions := some ["Enter a value for this condition"] }]
       else []) ++
      (if !isNullOrEmptyString rule.value then validateFieldValue rule.value field rule.id
       else [])

mutual
/-- `validateRuleGroup` from `validation.ts`: an empty-group warning when
the child list is empty, then each child validated in order, with rule
findings re-pathed under `currentPath ++ ["rules", index]`. -/
def validateRuleGroup (group : RuleGroup) (fields : List FieldConfig)
    (path : List String := []) : List ValidationError :=
  match group with
  | .mk i _ rs _ _ =>
      let currentPath := path ++ [i]
      (if rs.isEmpty then
        [{ id := i ++ "-empty", type := .group, severity := .warning,
           message := "Rule group is empty", path := currentPath,
           suggestions := some ["Add at least one rule or condition to this group"] }]
       else []) ++ validateRuleGroupItems fields currentPath rs 0
/-- The indexed `forEach` of `validateRuleGroup`. -/
def validateRuleGroupItems (fields : List FieldConfig) (currentPath : List String) :
    List RuleItem → Nat → List ValidationError
  | [], _ => []
  | .rule r :: rest, index =>
      ((validateRule r fields).map (fun e =>
        { e with path := currentPath ++ ["rules", toString index] ++ e.path.drop 1 })) ++
        validateRuleGroupItems fields currentPath rest (index + 1)
  | .group g :: rest, index =>
      validateRuleGroup g fields (currentPath ++ ["rules", toString index]) ++
        validateRuleGroupItems fields currentPath rest (index + 1)
end

/-- The result shape of `validateRuleStructure`. -/
structure StructureValidationResult where
  isValid : Bool
  errors : List ValidationError

/-- `validateRuleStructure` from `validation.ts`: valid exactly when no
finding of severity `error` was produced. -/
def validateRuleStructure (rule : RuleGroup) (fields : List FieldConfig) :
    StructureValidationResult :=
  let errors := validateRuleGroup rule fields
  { isValid := (errors.filter (fun e => e.severity == Severity.error)).length == 0,
    errors := errors }

/-! ## History manager (`src/hooks/useRuleBuilder.ts`) -/

/-- `RuleAction` from `src/types`. The dispatcher of `RESET` always
supplies a tree (`rule || createEmptyRuleGroup()`), so the action carries
one here. -/
inductive RuleAction where
  | addRule (groupId : String) (rule : Rule)
  | updateRuleAction (ruleId : String) (rule : Rule)
  | deleteRuleAction (ruleId : String)
  | addGroup (parentGroupId : String) (group : RuleGroup)
  | updateGroupAction (groupId : String) (group : GroupPatch)
  | deleteGroupAction (groupId : String)
  | setCombinator (groupId : String) (combinator : Combinator)
  | toggleNot (groupId : String)
  | reset (rule : RuleGroup)
  | undo
  | redo

/-- `RuleBuilderState` from `src/types`. -/
structure RuleBuilderState where
  rule : RuleGroup
  history : List RuleGroup
  historyIndex : Nat
  errors : List ValidationError
  isValid : Bool

/-- `MAX_HISTORY_SIZE` in `addToHistory`. -/
def MAX_HISTORY_SIZE : Nat := 50

/-- `addToHistory` from `useRuleBuilder.ts`: truncate everything after
the cursor, append the new tree, and drop the oldest entry when the log
exceeds `MAX_HISTORY_SIZE` (the TS `shift()` happens before
`newHistory.length - 1` is read). -/
def addToHistory (state : RuleBuilderState) (newRule : RuleGroup) :
    RuleBuilderState :=
  let newHistory := state.history.take (state.historyIndex + 1) ++ [newRule]
  let newHistory := if MAX_HISTORY_SIZE < newHistory.length then newHistory.tail else newHistory
  { state with
    rule := newRule
    history := newHistory
    historyIndex := newHistory.length - 1 }

/-- `findGroupById` from `useRuleBuilder.ts` (same search as `findGroup`
in `ruleUtils.ts`, redefined locally by the hook). -/
def findGroupById (rule : RuleGroup) (groupId : String) : Option RuleGroup :=
  findGroup rule groupId

/-- `createInitialState` from `useRuleBuilder.ts`, applied to the tree the
caller supplies. -/
def createInitialState (rule : RuleGroup) : RuleBuilderState :=
  { rule := rule, history := [rule], historyIndex := 0, errors := [], isValid := true }

/-- `ruleBuilderReducer` from `useRuleBuilder.ts`. -/
def ruleBuilderReducer (state : RuleBuilderState) (action : RuleAction) :
    RuleBuilderState :=
  match action with
  | .addRule groupId rule => addToHistory state (addRuleToGroup state.rule groupId rule)
  | .updateRuleAction ruleId rule => addToHistory state (updateRule state.rule ruleId rule)
  | .deleteRuleAction ruleId => addToHistory state (deleteRule state.rule ruleId)
  | .addGroup parentGroupId group =>
      addToHistory state (addGroupToGroup state.rule parentGroupId group)
  | .updateGroupAction groupId group => addToHistory state (updateGroup state.rule groupId group)
  | .deleteGroupAction groupId => addToHistory state (deleteGroup state.rule groupId)
  | .setCombinator groupId combinator =>
      addToHistory state (updateGroup state.rule groupId { combinator := some combinator })
  | .toggleNot groupId =>
      match findGroupById state.rule groupId with
      | some group =>
          addToHistory state (updateGroup state.rule groupId { negate := some (!group.negate) })
      | none => state
  | .reset rule => createInitialState rule
  | .undo =>
      if 0 < state.historyIndex then
        { state with
          rule := state.history.getD (state.historyIndex - 1) default
          historyIndex := state.historyIndex - 1 }
      else state
  | .redo =>
      if state.historyIndex < state.history.length - 1 then
        { state with
          rule := state.history.getD (state.historyIndex + 1) default
          historyIndex := state.historyIndex + 1 }
      else state

/-- The tree a successful edit action produces from the current tree, or
`none` for the non-edit actions (`RESET`, `UNDO`, `REDO`) and for a
`TOGGLE_NOT` whose group id is not found. Each `some` case is exactly the
tree the corresponding `ruleBuilderReducer` branch pushes through
`addToHistory`. -/
def editTree (t : RuleGroup) : RuleAction → Option RuleGroup
  | .addRule groupId rule => some (addRuleToGroup t groupId rule)
  | .updateRuleAction ruleId rule => some (updateRule t ruleId rule)
  | .deleteRuleAction ruleId => some (deleteRule t ruleId)
  | .addGroup parentGroupId group => some (addGroupToGroup t parentGroupId group)
  | .updateGroupAction groupId group => some (updateGroup t groupId group)
  | .deleteGroupAction groupId => some (deleteGroup t groupId)
  | .setCombinator groupId combinator =>
      some (updateGroup t groupId { combinator := some combinator })
  | .toggleNot groupId =>
      match findGroupById t groupId with
      | some group => some (updateGroup t groupId { negate := some (!group.negate) })
      | none => none
  | .reset _ => none
  | .undo => none
  | .redo => none

/-- A run of successful edit actions through `ruleBuilderReducer`: each
action must be a successful edit (in the sense of `editTree`) in the state
it meets. -/
inductive Edits : RuleBuilderState → List RuleAction → RuleBuilderState → Prop where
  | nil (s : RuleBuilderState) : Edits s [] s
  | cons {s s' : RuleBuilderState} {a : RuleAction} {as : List RuleAction}
      (t : RuleGroup) (ht : editTree s.rule a = some t)
      (hrest : Edits (ruleBuilderReducer s a) as s') : Edits s (a :: as) s'

/-- `n` clicks of undo: `n` dispatches of the `UNDO` action. -/
def undoN (n : Nat) (s : RuleBuilderState) : RuleBuilderState :=
  Nat.iterate (fun st => ruleBuilderReducer st .undo) n s

/-- `n` clicks of redo: `n` dispatches of the `REDO` action. -/
def redoN (n : Nat) (s : RuleBuilderState) : RuleBuilderState :=
  Nat.iterate (fun st => ruleBuilderReducer st .redo) n s

/-- The reducer invariant: the cursor is inside the log and points at the
current tree. `createInitialState` establishes it and every reducer branch
preserves it. -/
def AtCursor (s : RuleBuilderState) : Prop :=
  s.historyIndex + 1 ≤ s.history.length ∧
    s.history.getD s.historyIndex default = s.rule

/-! ## Node counting, id collection and id erasure

Helper functions for stating the clone properties: the number of nodes of
a subtree, its ids in the traversal order of `cloneRuleGroup` (a group's
own id before its children, children left to right), and the subtree with
every id blanked (two subtrees are "identical except for ids" exactly when
their erasures agree). -/

mutual
/-- Number of nodes (groups and rules) of a subtree. -/
def nodeCount : RuleGroup → Nat
  | .mk _ _ rs _ _ => 1 + nodeCountList rs
/-- `nodeCount` summed over a `rules` array. -/
def nodeCountList : List RuleItem → Nat
  | [] => 0
  | .rule _ :: rest => 1 + nodeCountList rest
  | .group g :: rest => nodeCount g + nodeCountList rest
end

mutual
/-- All node ids of a subtree, in `cloneRuleGroup`'s generation order. -/
def idsOfGroup : RuleGroup → List String
  | .mk i _ rs _ _ => i :: idsOfItems rs
/-- `idsOfGroup` over a `rules` array. -/
def idsOfItems : List RuleItem → List String
  | [] => []
  | .rule r :: rest => r.id :: idsOfItems rest
  | .group g :: rest => idsOfGroup g ++ idsOfItems rest
end

mutual
/-- The subtree with every id replaced by `""`. -/
def eraseIds : RuleGroup → RuleGroup
  | .mk _ c rs n ic => .mk "" c (eraseIdsItems rs) n ic
/-- `eraseIds` over a `rules` array. -/
def eraseIdsItems : List RuleItem → List RuleItem
  | [] => []
  | .rule r :: rest => .rule { r with id := "" } :: eraseIdsItems rest
  | .group g :: rest => .group (eraseIds g) :: eraseIdsItems rest
end

/-! ## Concrete fixtures

Small catalogs and trees used by the example-level theorems below. -/

/-- A catalog with a number field `age` labeled `Age` and a string field
`name` labeled `Name`. -/
def exFields : List FieldConfig :=
  [{ name := "age", label := "Age", type := .number },
   { name := "name", label := "Name", type := .string }]

/-- The condition `(age, >, 18)`. -/
def exRuleAge : Rule :=
  { id := "r1", field := "age", operator := ">", value := .num 18 }

/-- The condition `(name, equals, "O'Brien")`. -/
def exRuleName : Rule :=
  { id := "r2", field := "name", operator := "equals", value := .str "O'Brien" }

/-- The AND root holding exactly the two conditions of the concrete
scenario. -/
def exTree : RuleGroup :=
  .mk "root" .and [.rule exRuleAge, .rule exRuleName] false none

/-- An empty group. -/
def exEmptyGroup : RuleGroup := .mk "g9" .and [] false none

/-- A group holding one condition followed by one empty group. -/
def exTrailTree : RuleGroup :=
  .mk "root9" .and [.rule exRuleAge, .group exEmptyGroup] false none

/-- A tree with zero conditions anywhere but a non-empty root: the root's
only child is an empty group. -/
def exZeroCondTree : RuleGroup := .mk "root6" .and [.group exEmptyGroup] false none

/-- An inner group `g2` nested inside `g1`, nested inside the root: the
fixture for moving `g1` into its own descendant `g2`. -/
def exInnerGroup : RuleGroup := .mk "g2" .and [] false none

/-- The group `g1` containing `g2`. -/
def exOuterGroup : RuleGroup := .mk "g1" .and [.group exInnerGroup] false none

/-- The root containing `g1` (which contains `g2`). -/
def exMoveTree : RuleGroup := .mk "root4" .and [.group exOuterGroup] false none

/-- First condition of the OR-group connector fixture, carrying the edge
combinator AND. -/
def exEdgeRule1 : Rule :=
  { id := "a", field := "age", operator := ">", value := .num 1, combinator := some .and }

/-- Second condition of the OR-group connector fixture (no edge
combinator). -/
def exEdgeRule2 : Rule :=
  { id := "b", field := "age", operator := "<", value := .num 9 }

/-- A group with `defaultCombinator` OR whose first child carries the edge
combinator AND. -/
def exOrTree : RuleGroup := .mk "rootc1" .or [.rule exEdgeRule1, .rule exEdgeRule2] false none

/-- A one-condition tree for the update fixtures. -/
def exUpdateTree : RuleGroup := .mk "root5" .and [.rule exEdgeRule2] false none

/-- A replacement rule carrying a different id `zz`. -/
def exReplacement : Rule :=
  { id := "zz", field := "age", operator := "<", value := .num 7 }

/-- Id supply for the clone examples. -/
def exGen : Nat → String := fun n => "c" ++ toString n

/-- A one-child group holding one condition, negated: the single-child
Mongo fixture. -/
def exNegSingleTree : RuleGroup := .mk "w10" .or [.rule exRuleAge] true none

/-- The empty root group with its `not` flag set to `b`: the tree after
`b`-many-parity toggles of `exEmptyGroup`. -/
def exToggled (b : Bool) : RuleGroup := .mk "g9" .and [] b none

/-- The history log after `n` toggles of the empty root, below the cap:
entry `j` is the root toggled `j` times. -/
def exHist (n : Nat) : List RuleGroup :=
  (List.range (n + 1)).map (fun j => exToggled (decide (j % 2 = 1)))

/-- The builder state after `n` toggles of the empty root, below the cap. -/
def exS (n : Nat) : RuleBuilderState :=
  ⟨exToggled (decide (n % 2 = 1)), exHist n, n, [], true⟩

/-- The initial builder state over the empty root. -/
def exS0 : RuleBuilderState := createInitialState exEmptyGroup

/-- The state after two toggles of the empty root. -/
def exS2 : RuleBuilderState :=
  ruleBuilderReducer (ruleBuilderReducer exS0 (.toggleNot "g9")) (.toggleNot "g9")

/-! ## A joint induction principle for the tree -/

mutual
/-- Joint structural induction for `RuleGroup` together with `rules`
arrays. -/
theorem RuleGroup.treeInduction (P : RuleGroup → Prop) (Q : List RuleItem → Prop)
    (hg : ∀ i c rs n ic, Q rs → P (.mk i c rs n ic)) (hnil : Q [])
    (hrule : ∀ r rest, Q rest → Q (.rule r :: rest))
    (hgroup : ∀ g rest, P g → Q rest → Q (.group g :: rest)) :
    ∀ g : RuleGroup, P g
  | .mk i c rs n ic =>
      hg i c rs n ic (RuleItem.listInduction P Q hg hnil hrule hgroup rs)
/-- The `rules`-array half of `RuleGroup.treeInduction`. -/
theorem RuleItem.listInduction (P : RuleGroup → Prop) (Q : List RuleItem → Prop)
    (hg : ∀ i c rs n ic, Q rs → P (.mk i c rs n ic)) (hnil : Q [])
    (hrule : ∀ r rest, Q rest → Q (.rule r :: rest))
    (hgroup : ∀ g rest, P g → Q rest → Q (.group g :: rest)) :
    ∀ items : List RuleItem, Q items
  | [] => hnil
  | .rule r :: rest => hrule r rest (RuleItem.listInduction P Q hg hnil hrule hgroup rest)
  | .group g :: rest =>
      hgroup g rest (RuleGroup.treeInduction P Q hg hnil hrule hgroup g)
        (RuleItem.listInduction P Q hg hnil hrule hgroup rest)
end



/-! ## Helper lemmas for the claim theorems -/

/-- helper: all-empty parts produce nothing (SQL). -/
theorem sqlParts_nil_of_empty_parts (fields : List FieldConfig) (gc : Combinator) :
    ∀ rest : List RuleItem, (∀ y ∈ rest, sqlItemString fields y = "") →
      sqlParts fields gc rest = [] := by
  intro rest
  induction rest with
  | nil => intro _; rfl
  | cons z zs ih =>
      intro h
      simp only [sqlParts]
      rw [if_pos (h z (List.mem_cons_self z zs))]
      exact ih (fun y hy => h y (List.mem_cons_of_mem z hy))

/-- helper: all-empty parts produce nothing (readable). -/
theorem readableParts_nil_of_empty_parts (fields : List FieldConfig) (gc : Combinator) :
    ∀ rest : List RuleItem, (∀ y ∈ rest, readableItemString fields y = "") →
      readableParts fields gc rest = [] := by
  intro rest
  induction rest with
  | nil => intro _; rfl
  | cons z zs ih =>
      intro h
      simp only [readableParts]
      rw [if_pos (h z (List.mem_cons_self z zs))]
      exact ih (fun y hy => h y (List.mem_cons_of_mem z hy))

mutual
/-- `updateGroup` with a patch that does not replace the children array
preserves every node id, whatever the patch's `id` field holds. -/
theorem updateGroup_ids (gid : String) (p : GroupPatch) (hp : p.rules = none) :
    ∀ t : RuleGroup, idsOfGroup (updateGroup t gid p) = idsOfGroup t
  | .mk i c rs n ic => by
      by_cases h : i = gid
      · simp [updateGroup, if_pos h, applyGroupPatch, hp, idsOfGroup]
      · simp [updateGroup, if_neg h, idsOfGroup, updateGroupList_ids gid p hp rs]
/-- `rules`-array half of `updateGroup_ids`. -/
theorem updateGroupList_ids (gid : String) (p : GroupPatch) (hp : p.rules = none) :
    ∀ items : List RuleItem,
      idsOfItems (updateGroupList items gid p) = idsOfItems items
  | [] => rfl
  | .rule r :: rest => by
      simp [updateGroupList, idsOfItems, updateGroupList_ids gid p hp rest]
  | .group g :: rest => by
      simp [updateGroupList, idsOfItems, updateGroup_ids gid p hp g,
        updateGroupList_ids gid p hp rest]
end

mutual
/-- The group addressed by `updateGroup` remains findable. -/
theorem updateGroup_find_isSome (gid : String) (p : GroupPatch) :
    ∀ t : RuleGroup, (findGroup t gid).isSome = true →
      (findGroup (updateGroup t gid p) gid).isSome = true
  | .mk i c rs n ic => by
      by_cases h : i = gid
      · intro _
        simp [updateGroup, if_pos h, applyGroupPatch, findGroup, h]
      · intro hfind
        simp only [findGroup, if_neg h] at hfind
        simp only [updateGroup, if_neg h, findGroup, if_neg h]
        exact updateGroupList_find_isSome gid p rs hfind
/-- `rules`-array half of `updateGroup_find_isSome`. -/
theorem updateGroupList_find_isSome (gid : String) (p : GroupPatch) :
    ∀ items : List RuleItem, (findGroupList items gid).isSome = true →
      (findGroupList (updateGroupList items gid p) gid).isSome = true
  | [] => by intro h; simp [findGroupList] at h
  | .rule r :: rest => by
      intro hfind
      simp only [findGroupList] at hfind
      simp only [updateGroupList, findGroupList]
      exact updateGroupList_find_isSome gid p rest hfind
  | .group g :: rest => by
      intro hfind
      simp only [updateGroupList, findGroupList]
      cases hup : findGroup (updateGroup g gid p) gid with
      | some w => simp
      | none =>
          simp only [findGroupList] at hfind
          cases hfg : findGroup g gid with
          | some w =>
              have := updateGroup_find_isSome gid p g (by simp [hfg])
              rw [hup] at this
              simp at this
          | none =>
              rw [hfg] at hfind
              exact updateGroupList_find_isSome gid p rest hfind
end

mutual
/-- `updateRule` leaves every rule with a different id findable unchanged
(provided the replacement does not itself carry the looked-up id). -/
theorem updateRule_find_other (rid : String) (r : Rule) (j : String)
    (hj1 : j ≠ rid) (hj2 : j ≠ r.id) :
    ∀ t : RuleGroup, findRule (updateRule t rid r) j = findRule t j
  | .mk i c rs n ic => by
      simp only [updateRule, findRule]
      exact updateRuleList_find_other rid r j hj1 hj2 rs
/-- `rules`-array half of `updateRule_find_other`. -/
theorem updateRuleList_find_other (rid : String) (r : Rule) (j : String)
    (hj1 : j ≠ rid) (hj2 : j ≠ r.id) :
    ∀ items : List RuleItem,
      findRuleList (updateRuleList items rid r) j = findRuleList items j
  | [] => rfl
  | .rule q :: rest => by
      by_cases hq : q.id = rid
      · simp only [updateRuleList, if_pos hq, findRuleList]
        rw [if_neg (fun h => hj2 h.symm), if_neg (by rw [hq]; exact fun h => hj1 h.symm)]
        exact updateRuleList_find_other rid r j hj1 hj2 rest
      · simp only [updateRuleList, if_neg hq, findRuleList]
        by_cases hqj : q.id = j
        · rw [if_pos hqj, if_pos hqj]
        · rw [if_neg hqj, if_neg hqj]
          exact updateRuleList_find_other rid r j hj1 hj2 rest
  | .group g :: rest => by
      simp only [updateRuleList, findRuleList]
      rw [updateRule_find_other rid r j hj1 hj2 g]
      cases findRule g j with
      | some w => rfl
      | none => exact updateRuleList_find_other rid r j hj1 hj2 rest
end

mutual
/-- When no rule carries the id, `updateRule` is the identity. -/
theorem updateRule_id_of_not_found (rid : String) (r : Rule) :
    ∀ t : RuleGroup, findRule t rid = none → updateRule t rid r = t
  | .mk i c rs n ic => by
      intro hnone
      simp only [findRule] at hnone
      simp only [updateRule]
      rw [updateRuleList_id_of_not_found rid r rs hnone]
/-- `rules`-array half of `updateRule_id_of_not_found`. -/
theorem updateRuleList_id_of_not_found (rid : String) (r : Rule) :
    ∀ items : List RuleItem, findRuleList items rid = none →
      updateRuleList items rid r = items
  | [] => fun _ => rfl
  | .rule q :: rest => by
      intro hnone
      simp only [findRuleList] at hnone
      by_cases hq : q.id = rid
      · rw [if_pos hq] at hnone
        exact absurd hnone (by simp)
      · rw [if_neg hq] at hnone
        simp only [updateRuleList, if_neg hq]
        rw [updateRuleList_id_of_not_found rid r rest hnone]
  | .group g :: rest => by
      intro hnone
      simp only [findRuleList] at hnone
      cases hfg : findRule g rid with
      | some w => rw [hfg] at hnone; exact absurd hnone (by simp)
      | none =>
          rw [hfg] at hnone
          simp only [updateRuleList]
          rw [updateRule_id_of_not_found rid r g hfg,
            updateRuleList_id_of_not_found rid r rest hnone]
end

mutual
/-- When the replacement carries the addressed id and some rule has it,
the addressed id resolves to the replacement afterwards. -/
theorem updateRule_find_self (rid : String) (r : Rule) (hr : r.id = rid) :
    ∀ t : RuleGroup, (findRule t rid).isSome = true →
      findRule (updateRule t rid r) rid = some r
  | .mk i c rs n ic => by
      intro hfind
      simp only [findRule] at hfind
      simp only [updateRule, findRule]
      exact updateRuleList_find_self rid r hr rs hfind
/-- `rules`-array half of `updateRule_find_self`. -/
theorem updateRuleList_find_self (rid : String) (r : Rule) (hr : r.id = rid) :
    ∀ items : List RuleItem, (findRuleList items rid).isSome = true →
      findRuleList (updateRuleList items rid r) rid = some r
  | [] => by intro h; simp [findRuleList] at h
  | .rule q :: rest => by
      intro hfind
      by_cases hq : q.id = rid
      · simp only [updateRuleList, if_pos hq, findRuleList]
        rw [if_pos hr]
      · simp only [findRuleList, if_neg hq] at hfind
        simp only [updateRuleList, if_neg hq, findRuleList, if_neg hq]
        exact updateRuleList_find_self rid r hr rest hfind
  | .group g :: rest => by
      intro hfind
      simp only [findRuleList] at hfind
      simp only [updateRuleList, findRuleList]
      cases hfg : findRule g rid with
      | some w =>
          rw [updateRule_find_self rid r hr g (by simp [hfg])]
      | none =>
          rw [hfg] at hfind
          rw [updateRule_id_of_not_found rid r g hfg, hfg]
          exact updateRuleList_find_self rid r hr rest hfind
end

mutual
/-- Clone characterization: final counter, generated ids, and erased
shape, for a whole subtree. -/
theorem cloneRuleGroup_spec (gen : Nat → String) :
    ∀ (g : RuleGroup) (k : Nat),
      (cloneRuleGroup gen k g).2 = k + nodeCount g ∧
      idsOfGroup (cloneRuleGroup gen k g).1 = (List.range' k (nodeCount g)).map gen ∧
      eraseIds (cloneRuleGroup gen k g).1 = eraseIds g
  | .mk i c rs n ic, k => by
      obtain ⟨h2, hids, herase⟩ := cloneRuleGroupList_spec gen rs (k + 1)
      refine ⟨?_, ?_, ?_⟩
      · simp only [cloneRuleGroup, h2, nodeCount]
        omega
      · simp only [cloneRuleGroup, idsOfGroup, hids, nodeCount]
        rw [Nat.add_comm 1 (nodeCountList rs), List.range'_succ, List.map_cons]
      · simp only [cloneRuleGroup, eraseIds, herase]
/-- `rules`-array half of `cloneRuleGroup_spec`. -/
theorem cloneRuleGroupList_spec (gen : Nat → String) :
    ∀ (items : List RuleItem) (k : Nat),
      (cloneRuleGroupList gen k items).2 = k + nodeCountList items ∧
      idsOfItems (cloneRuleGroupList gen k items).1 =
        (List.range' k (nodeCountList items)).map gen ∧
      eraseIdsItems (cloneRuleGroupList gen k items).1 = eraseIdsItems items
  | [], k => by simp [cloneRuleGroupList, nodeCountList, idsOfItems, eraseIdsItems]
  | .rule r :: rest, k => by
      obtain ⟨h2, hids, herase⟩ := cloneRuleGroupList_spec gen rest (k + 1)
      refine ⟨?_, ?_, ?_⟩
      · simp only [cloneRuleGroupList, cloneRule, h2, nodeCountList]
        omega
      · simp only [cloneRuleGroupList, cloneRule, idsOfItems, hids, nodeCountList]
        rw [Nat.add_comm 1 (nodeCountList rest), List.range'_succ, List.map_cons]
      · simp only [cloneRuleGroupList, cloneRule, eraseIdsItems, herase]
  | .group g :: rest, k => by
      obtain ⟨hg2, hgids, hgerase⟩ := cloneRuleGroup_spec gen g k
      obtain ⟨h2, hids, herase⟩ := cloneRuleGroupList_spec gen rest (k + nodeCount g)
      refine ⟨?_, ?_, ?_⟩
      · simp only [cloneRuleGroupList, hg2, h2, nodeCountList]
        omega
      · simp only [cloneRuleGroupList, idsOfItems, hg2, hgids, hids, nodeCountList]
        rw [← List.map_append, List.range'_append_1, Nat.add_comm (nodeCountList rest)]
      · simp only [cloneRuleGroupList, eraseIdsItems, hg2, hgerase, herase]
end

/-- `take n` then `getD` below `n` reads the original list. -/
theorem list_getD_take {α : Type} (l : List α) (d : α) (n j : Nat) (h : j < n) :
    (l.take n).getD j d = l.getD j d := by
  simp [List.getD_eq_getElem?_getD, List.getElem?_take, h]

/-- `addToHistory` below the cap: truncate after the cursor and append. -/
theorem addToHistory_no_trim (s : RuleBuilderState) (t : RuleGroup)
    (hlen : s.historyIndex + 1 ≤ s.history.length)
    (hcap : s.historyIndex + 2 ≤ MAX_HISTORY_SIZE) :
    addToHistory s t =
      { s with rule := t,
               history := s.history.take (s.historyIndex + 1) ++ [t],
               historyIndex := s.historyIndex + 1 } := by
  have hmin : (s.history.take (s.historyIndex + 1)).length = s.historyIndex + 1 := by
    rw [List.length_take]
    omega
  simp only [addToHistory]
  rw [if_neg (by
    simp only [List.length_append, hmin, List.length_singleton, MAX_HISTORY_SIZE] at hcap ⊢
    omega)]
  simp [List.length_append, hmin]

/-- Characterization of a run of `addToHistory` pushes that stays within
the cap: the cursor advances by the number of pushes, the current tree is
the last push, and the log up to the original cursor is untouched. -/
theorem foldl_addToHistory_spec :
    ∀ (ts : List RuleGroup) (s : RuleBuilderState), AtCursor s →
      s.historyIndex + 1 + ts.length ≤ MAX_HISTORY_SIZE →
      AtCursor (List.foldl addToHistory s ts) ∧
      (List.foldl addToHistory s ts).historyIndex = s.historyIndex + ts.length ∧
      (List.foldl addToHistory s ts).rule = ts.getLastD s.rule ∧
      (∀ j, j ≤ s.historyIndex →
        (List.foldl addToHistory s ts).history.getD j default =
          s.history.getD j default) := by
  intro ts
  induction ts with
  | nil =>
      intro s hat _
      exact ⟨hat, by simp, by simp [List.getLastD], fun j _ => rfl⟩
  | cons t ts' ih =>
      intro s hat hcap
      obtain ⟨hatlen, hatrule⟩ := hat
      have hstep := addToHistory_no_trim s t hatlen
        (by simp only [List.length_cons] at hcap; omega)
      have hmin : (s.history.take (s.historyIndex + 1)).length = s.historyIndex + 1 := by
        rw [List.length_take]
        omega
      have hat1 : AtCursor (addToHistory s t) := by
        rw [hstep]
        refine ⟨by simp [hmin], ?_⟩
        show (s.history.take (s.historyIndex + 1) ++ [t]).getD (s.historyIndex + 1)
          default = t
      
        rw [List.getD_eq_getElem?_getD, List.getElem?_append_right (by omega), hmin]
        simp
      have hidx1 : (addToHistory s t).historyIndex = s.historyIndex + 1 := by
        rw [hstep]
      have hcap1 : (addToHistory s t).historyIndex + 1 + ts'.length ≤ MAX_HISTORY_SIZE := by
        rw [hidx1]
        simp only [List.length_cons] at hcap
        omega
      obtain ⟨ihat, ihidx, ihrule, ihpre⟩ := ih (addToHistory s t) hat1 hcap1
      refine ⟨?_, ?_, ?_, ?_⟩
      · simpa using ihat
      · simp only [List.foldl_cons, ihidx, hidx1, List.length_cons]
        omega
      · simp only [List.foldl_cons, ihrule, List.getLastD_cons]
        rw [hstep]
      · intro j hj
        have := ihpre j (by rw [hidx1]; omega)
        simp only [List.foldl_cons]
        rw [this, hstep]
        show (s.history.take (s.historyIndex + 1) ++ [t]).getD j default =
          s.history.getD j default
        rw [List.getD_eq_getElem?_getD, List.getElem?_append_left (by omega),
          ← List.getD_eq_getElem?_getD]
        exact list_getD_take s.history default (s.historyIndex + 1) j (by omega)

/-- `n` undos move the cursor back `n` places without touching the log. -/
theorem undoN_spec :
    ∀ (n : Nat) (s : RuleBuilderState), AtCursor s → n ≤ s.historyIndex →
      undoN n s =
        { s with rule := s.history.getD (s.historyIndex - n) default,
                 historyIndex := s.historyIndex - n } := by
  intro n
  induction n with
  | zero =>
      intro s hat _
      obtain ⟨hlen, hrule⟩ := hat
      cases s with
      | mk rule history historyIndex errors isValid =>
          simp only [undoN, Function.iterate_zero, id_eq, Nat.sub_zero]
          simp only at hrule
          rw [hrule]
  | succ n ih =>
      intro s hat hn
      obtain ⟨hlen, hrule⟩ := hat
      have hstep : ruleBuilderReducer s .undo =
          { s with rule := s.history.getD (s.historyIndex - 1) default,
                   historyIndex := s.historyIndex - 1 } := by
        simp only [ruleBuilderReducer]
        rw [if_pos (by omega)]
      have key : undoN (n + 1) s = undoN n (ruleBuilderReducer s .undo) := by
        simp only [undoN, Function.iterate_succ_apply]
      rw [key, hstep]
      rw [ih _ ⟨show s.historyIndex - 1 + 1 ≤ s.history.length by omega, rfl⟩
        (show n ≤ s.historyIndex - 1 by omega)]
      have harith : s.historyIndex - 1 - n = s.historyIndex - (n + 1) := by omega
      show ({ s with
        rule := s.history.getD (s.historyIndex - 1 - n) default,
        historyIndex := s.historyIndex - 1 - n } : RuleBuilderState) = _
      rw [harith]

/-- `n` redos move the cursor forward `n` places without touching the log. -/
theorem redoN_spec :
    ∀ (n : Nat) (s : RuleBuilderState), AtCursor s →
      s.historyIndex + n + 1 ≤ s.history.length →
      redoN n s =
        { s with rule := s.history.getD (s.historyIndex + n) default,
                 historyIndex := s.historyIndex + n } := by
  intro n
  induction n with
  | zero =>
      intro s hat _
      obtain ⟨hlen, hrule⟩ := hat
      cases s with
      | mk rule history historyIndex errors isValid =>
          simp only [redoN, Function.iterate_zero, id_eq, Nat.add_zero]
          simp only at hrule
          rw [hrule]
  | succ n ih =>
      intro s hat hn
      obtain ⟨hlen, hrule⟩ := hat
      have hstep : ruleBuilderReducer s .redo =
          { s with rule := s.history.getD (s.historyIndex + 1) default,
                   historyIndex := s.historyIndex + 1 } := by
        simp only [ruleBuilderReducer]
        rw [if_pos (by omega)]
      have key : redoN (n + 1) s = redoN n (ruleBuilderReducer s .redo) := by
        simp only [redoN, Function.iterate_succ_apply]
      rw [key, hstep]
      rw [ih _ ⟨show s.historyIndex + 1 + 1 ≤ s.history.length by omega, rfl⟩
        (show s.historyIndex + 1 + n + 1 ≤ s.history.length by omega)]
      have harith : s.historyIndex + 1 + n = s.historyIndex + (n + 1) := by omega
      show ({ s with
        rule := s.history.getD (s.historyIndex + 1 + n) default,
        historyIndex := s.historyIndex + 1 + n } : RuleBuilderState) = _
      rw [harith]

/-- A successful edit action is exactly an `addToHistory` push of the tree
`editTree` computes. -/
theorem reducer_of_editTree (s : RuleBuilderState) (a : RuleAction) (t : RuleGroup)
    (ht : editTree s.rule a = some t) :
    ruleBuilderReducer s a = addToHistory s t := by
  cases a with
  | addRule groupId rule =>
      simp only [editTree, Option.some_inj] at ht
      simp only [ruleBuilderReducer, ht]
  | updateRuleAction ruleId rule =>
      simp only [editTree, Option.some_inj] at ht
      simp only [ruleBuilderReducer, ht]
  | deleteRuleAction ruleId =>
      simp only [editTree, Option.some_inj] at ht
      simp only [ruleBuilderReducer, ht]
  | addGroup parentGroupId group =>
      simp only [editTree, Option.some_inj] at ht
      simp only [ruleBuilderReducer, ht]
  | updateGroupAction groupId group =>
      simp only [editTree, Option.some_inj] at ht
      simp only [ruleBuilderReducer, ht]
  | deleteGroupAction groupId =>
      simp only [editTree, Option.some_inj] at ht
      simp only [ruleBuilderReducer, ht]
  | setCombinator groupId combinator =>
      simp only [editTree, Option.some_inj] at ht
      simp only [ruleBuilderReducer, ht]
  | toggleNot groupId =>
      simp only [editTree] at ht
      simp only [ruleBuilderReducer]
      cases hfind : findGroupById s.rule groupId with
      | some g =>
          rw [hfind] at ht
          simp only [Option.some_inj] at ht
          show addToHistory s
            (updateGroup s.rule groupId { negate := some (!g.negate) }) = addToHistory s t
          rw [ht]
      | none => rw [hfind] at ht; exact absurd ht (by simp)
  | reset rule => exact absurd ht (by simp [editTree])
  | undo => exact absurd ht (by simp [editTree])
  | redo => exact absurd ht (by simp [editTree])

/-- A run of successful edits is a run of `addToHistory` pushes of the
same length. -/
theorem edits_eq_foldl :
    ∀ {s : RuleBuilderState} {acts : List RuleAction} {s' : RuleBuilderState},
      Edits s acts s' →
      ∃ ts : List RuleGroup, ts.length = acts.length ∧
        s' = List.foldl addToHistory s ts := by
  intro s acts s' h
  induction h with
  | nil s => exact ⟨[], rfl, rfl⟩
  | cons t ht _ ih =>
      obtain ⟨ts, hlen, hfold⟩ := ih
      exact ⟨t :: ts, by simp [hlen],
        by rw [hfold, List.foldl_cons, reducer_of_editTree _ _ _ ht]⟩

/-- One toggle dispatch on a state whose tree is the toggled empty root:
the reducer pushes the re-toggled tree. -/
theorem exToggled_step (s : RuleBuilderState) (b : Bool) (hr : s.rule = exToggled b) :
    ruleBuilderReducer s (.toggleNot "g9") = addToHistory s (exToggled (!b)) := by
  simp only [ruleBuilderReducer, findGroupById, hr]
  rfl

/-- The first 49 toggle dispatches from a fresh state stay below the cap
and produce exactly the alternating log. -/
theorem exToggled_fold :
    ∀ n : Nat, n ≤ 49 →
      List.foldl ruleBuilderReducer (createInitialState (exToggled false))
        (List.replicate n (RuleAction.toggleNot "g9")) = exS n := by
  intro n
  induction n with
  | zero => intro _; rfl
  | succ n ih =>
      intro hn
      rw [List.replicate_succ', List.foldl_append, ih (by omega), List.foldl_cons,
        List.foldl_nil, exToggled_step (exS n) (decide (n % 2 = 1)) rfl,
        addToHistory_no_trim (exS n) _ (by simp [exS, exHist])
          (by simp only [exS, MAX_HISTORY_SIZE]; omega)]
      have hl : (exHist n).length = n + 1 := by simp [exHist]
      have hpar : (!decide (n % 2 = 1)) = decide ((n + 1) % 2 = 1) := by
        rcases Nat.mod_two_eq_zero_or_one n with h | h
        · have h2 : (n + 1) % 2 = 1 := by omega
          simp [h, h2]
        · have h2 : (n + 1) % 2 = 0 := by omega
          simp [h, h2]
      show ({ exS n with
        rule := exToggled (!decide (n % 2 = 1)),
        history := (exHist n).take (n + 1) ++ [exToggled (!decide (n % 2 = 1))],
        historyIndex := n + 1 } : RuleBuilderState) = exS (n + 1)
      rw [hpar, ← hl, List.take_length, hl]
      show (⟨exToggled (decide ((n + 1) % 2 = 1)),
        exHist n ++ [exToggled (decide ((n + 1) % 2 = 1))], n + 1, [], true⟩ :
          RuleBuilderState) = exS (n + 1)
      have hh : exHist n ++ [exToggled (decide ((n + 1) % 2 = 1))] = exHist (n + 1) := by
        simp only [exHist, List.range_succ, List.map_append, List.map_cons, List.map_nil]
      rw [hh]
      rfl

/-- Every toggle in such a run is a successful edit. -/
theorem exToggled_edits :
    ∀ (n : Nat) (s : RuleBuilderState) (b : Bool), s.rule = exToggled b →
      Edits s (List.replicate n (RuleAction.toggleNot "g9"))
        (List.foldl ruleBuilderReducer s (List.replicate n (RuleAction.toggleNot "g9"))) := by
  intro n
  induction n with
  | zero => intro s b _; exact Edits.nil s
  | succ n ih =>
      intro s b hr
      rw [List.replicate_succ, List.foldl_cons]
      refine Edits.cons (exToggled (!b)) ?_ ?_
      · rw [hr]; rfl
      · refine ih (ruleBuilderReducer s (.toggleNot "g9")) (!b) ?_
        rw [exToggled_step s b hr]
        rfl

/-! ## The claims -/

/-- C1: in each backend (readable, SQL, Mongo), the connector rendered
between consecutive children of a group is the per-edge combinator stored
on the left child when present (the `combinator` field of a condition,
the `individualCombinator` field of a group), and otherwise the parent
group's `combinator` — the resolution rule captured by
`effectiveConnector`; in particular, for a group with default combinator
OR whose first child carries edge combinator AND, the connector emitted
between the first and second child is AND, not OR. -/
theorem c1_connector_resolution :
    (∀ (fields : List FieldConfig) (gc : Combinator) (x : RuleItem) (rest : List RuleItem),
      readableItemString fields x ≠ "" → rest ≠ [] →
      readableParts fields gc (x :: rest) =
        readableItemString fields x ::
          (" " ++ (effectiveConnector x gc).upper ++ " ") :: readableParts fields gc rest) ∧
    (∀ (fields : List FieldConfig) (gc : Combinator) (x : RuleItem) (rest : List RuleItem),
      sqlItemString fields x ≠ "" → rest ≠ [] →
      sqlParts fields gc (x :: rest) =
        sqlItemString fields x ::
          (" " ++ (effectiveConnector x gc).upper ++ " ") :: sqlParts fields gc rest) ∧
    (∀ (fields : List FieldConfig) (gc : Combinator) (x : RuleItem) (rest : List RuleItem),
      (mongoItemQuery fields x).isNonEmptyObj = true → rest ≠ [] →
      mongoCollect fields gc (x :: rest) =
        (mongoItemQuery fields x :: (mongoCollect fields gc rest).1,
         effectiveConnector x gc :: (mongoCollect fields gc rest).2)) ∧
    formatRuleGroupToReadableString exOrTree exFields =
      "Age is greater than 1 AND Age is less than 9" := by
  refine ⟨?_, ?_, ?_, rfl⟩
  · intro fields gc x rest hx hrest
    obtain ⟨y, ys, rfl⟩ := List.exists_cons_of_ne_nil hrest
    simp only [readableParts]
    rw [if_neg hx]
    rfl
  · intro fields gc x rest hx hrest
    obtain ⟨y, ys, rfl⟩ := List.exists_cons_of_ne_nil hrest
    simp only [sqlParts]
    rw [if_neg hx]
    rfl
  · intro fields gc x rest hx hrest
    obtain ⟨y, ys, rfl⟩ := List.exists_cons_of_ne_nil hrest
    simp only [mongoCollect]
    rw [if_pos hx]
    rfl

/-- C1 witness: the three step lemmas evaluated on the OR-group whose
first child carries edge combinator AND. -/
theorem c1_connector_resolution_witness :
    sqlParts exFields .or [.rule exEdgeRule1, .rule exEdgeRule2] =
      sqlItemString exFields (.rule exEdgeRule1) ::
        (" " ++ (effectiveConnector (.rule exEdgeRule1) .or).upper ++ " ") ::
        sqlParts exFields .or [.rule exEdgeRule2] ∧
    readableParts exFields .or [.rule exEdgeRule1, .rule exEdgeRule2] =
      readableItemString exFields (.rule exEdgeRule1) ::
        (" " ++ (effectiveConnector (.rule exEdgeRule1) .or).upper ++ " ") ::
        readableParts exFields .or [.rule exEdgeRule2] ∧
    mongoCollect exFields .or [.rule exEdgeRule1, .rule exEdgeRule2] =
      (mongoItemQuery exFields (.rule exEdgeRule1) ::
        (mongoCollect exFields .or [.rule exEdgeRule2]).1,
       effectiveConnector (.rule exEdgeRule1) .or ::
        (mongoCollect exFields .or [.rule exEdgeRule2]).2) :=
  ⟨c1_connector_resolution.2.1 exFields .or (.rule exEdgeRule1) [.rule exEdgeRule2]
      (by decide) (by simp),
   c1_connector_resolution.1 exFields .or (.rule exEdgeRule1) [.rule exEdgeRule2]
      (by decide) (by simp),
   c1_connector_resolution.2.2.1 exFields .or (.rule exEdgeRule1) [.rule exEdgeRule2]
      (by decide) (by simp)⟩

/-- C2: for the tree whose root is an AND group holding exactly the two
conditions (age, >, 18) and (name, equals, "O'Brien") over a catalog with
number field age labeled Age and string field name labeled Name, the SQL
backend produces exactly `age > 18 AND name = 'O''Brien'` (the embedded
single quote doubled), the Mongo backend the corresponding `$and`
document, and the readable backend the labeled sentence with the quoted
value. -/
theorem c2_concrete_scenario :
    formatRuleGroupToSQL exTree exFields = "age > 18 AND name = 'O''Brien'" ∧
    formatRuleGroupToMongoDB exTree exFields =
      .obj [("$and", .arr [.obj [("age", .obj [("$gt", .num 18)])],
                           .obj [("name", .str "O'Brien")]])] ∧
    formatRuleGroupToReadableString exTree exFields =
      "Age is greater than 18 AND Name equals \"O'Brien\"" :=
  ⟨rfl, rfl, rfl⟩

/-- C3 (amended): for every starting state whose cursor points at its
current tree and every run of successful edit actions that keeps the log
within the 50-entry cap, dispatching undo once per edit restores the
starting tree, and then dispatching redo once per edit restores the tree
after the last edit; moreover every push truncates the entries after the
cursor before appending. Beyond the cap the oldest entries are dropped
and a full undo is impossible, which is what forces the cap hypothesis. -/
theorem c3_undo_redo_inverse :
    (∀ (s : RuleBuilderState) (acts : List RuleAction) (s' : RuleBuilderState),
      AtCursor s → Edits s acts s' →
      s.historyIndex + 1 + acts.length ≤ MAX_HISTORY_SIZE →
      (undoN acts.length s').rule = s.rule ∧
      (redoN acts.length (undoN acts.length s')).rule = s'.rule) ∧
    (∀ (s : RuleBuilderState) (t : RuleGroup),
      s.historyIndex + 1 ≤ s.history.length →
      s.historyIndex + 2 ≤ MAX_HISTORY_SIZE →
      (addToHistory s t).history = s.history.take (s.historyIndex + 1) ++ [t]) := by
  constructor
  · intro s acts s' hat hedits hcap
    obtain ⟨ts, hlen, rfl⟩ := edits_eq_foldl hedits
    rw [← hlen] at hcap ⊢
    obtain ⟨hat', hidx', hrule', hpre'⟩ := foldl_addToHistory_spec ts s hat hcap
    have hundo := undoN_spec ts.length (List.foldl addToHistory s ts) hat'
      (by omega)
    have hrule0 : (undoN ts.length (List.foldl addToHistory s ts)).rule = s.rule := by
      rw [hundo]
      show (List.foldl addToHistory s ts).history.getD
        ((List.foldl addToHistory s ts).historyIndex - ts.length) default = s.rule
      rw [hidx', Nat.add_sub_cancel, hpre' s.historyIndex (Nat.le_refl _)]
      exact hat.2
    refine ⟨hrule0, ?_⟩
    have hatu : AtCursor (undoN ts.length (List.foldl addToHistory s ts)) := by
      rw [hundo]
      constructor
      · show (List.foldl addToHistory s ts).historyIndex - ts.length + 1 ≤
          (List.foldl addToHistory s ts).history.length
        have := hat'.1
        omega
      · rfl
    have hredo := redoN_spec ts.length (undoN ts.length (List.foldl addToHistory s ts))
      hatu (by
        rw [hundo]
        show (List.foldl addToHistory s ts).historyIndex - ts.length + ts.length + 1 ≤
          (List.foldl addToHistory s ts).history.length
        have := hat'.1
        omega)
    rw [hredo]
    show (undoN ts.length (List.foldl addToHistory s ts)).history.getD _ default = _
    rw [hundo]
    show (List.foldl addToHistory s ts).history.getD
      ((List.foldl addToHistory s ts).historyIndex - ts.length + ts.length) default = _
    have heq : (List.foldl addToHistory s ts).historyIndex - ts.length + ts.length =
        (List.foldl addToHistory s ts).historyIndex := by
      rw [hidx']
      omega
    rw [heq]
    exact hat'.2
  · intro s t hlen hcap
    rw [addToHistory_no_trim s t hlen hcap]

/-- C3 witness: a two-toggle run from a fresh state, undone and redone
twice, plus the truncation equation evaluated on the fresh state. -/
theorem c3_undo_redo_inverse_witness :
    ((undoN 2 exS2).rule = exS0.rule ∧ (redoN 2 (undoN 2 exS2)).rule = exS2.rule) ∧
    (addToHistory exS0 exTree).history =
      exS0.history.take (exS0.historyIndex + 1) ++ [exTree] :=
  ⟨c3_undo_redo_inverse.1 exS0 [.toggleNot "g9", .toggleNot "g9"] exS2
      ⟨by decide, rfl⟩
      (Edits.cons _ rfl (Edits.cons _ rfl (Edits.nil _)))
      (by decide),
   c3_undo_redo_inverse.2 exS0 exTree (by decide) (by decide)⟩

/-- C3 counterexample: from a fresh initial state, the 50 toggle actions
are all successful edits, yet the 50th push overflows the 50-entry log
(the oldest entry is dropped), after which applying undo 50 times does not
restore the initial tree. -/
theorem c3_counterexample :
    Edits (createInitialState (exToggled false))
      (List.replicate 50 (RuleAction.toggleNot "g9"))
      (List.foldl ruleBuilderReducer (createInitialState (exToggled false))
        (List.replicate 50 (RuleAction.toggleNot "g9"))) ∧
    (undoN 50 (List.foldl ruleBuilderReducer (createInitialState (exToggled false))
        (List.replicate 50 (RuleAction.toggleNot "g9")))).rule ≠
      (createInitialState (exToggled false)).rule := by
  constructor
  · exact exToggled_edits 50 _ false rfl
  · have hsplit : List.replicate 50 (RuleAction.toggleNot "g9") =
        List.replicate 49 (RuleAction.toggleNot "g9") ++ [RuleAction.toggleNot "g9"] :=
      List.replicate_succ' _ _
    rw [hsplit, List.foldl_append, exToggled_fold 49 (by omega), List.foldl_cons,
      List.foldl_nil, exToggled_step (exS 49) true rfl]
    have hidx : (addToHistory (exS 49) (exToggled (!true))).historyIndex = 49 := rfl
    have hat : AtCursor (addToHistory (exS 49) (exToggled (!true))) := ⟨by decide, rfl⟩
    have hsplit2 : undoN 50 (addToHistory (exS 49) (exToggled (!true))) =
        undoN 1 (undoN 49 (addToHistory (exS 49) (exToggled (!true)))) := by
      simp only [undoN]
      rw [show (50 : Nat) = 1 + 49 from rfl, Function.iterate_add_apply]
    rw [hsplit2, undoN_spec 49 _ hat (by rw [hidx])]
    intro h
    have hneg := congrArg RuleGroup.negate h
    exact absurd hneg (by decide)

/-- C4 (code-bug evaluation): moving a group into its own descendant does
not return the input tree unchanged — `moveItem` removes the group (and
with it its whole subtree, the intended target included), then fails to
find the target and never reinserts, silently deleting the subtree: on
the fixture the tree drops from 3 groups to 1. Only the missing-item case
returns the input unchanged. -/
theorem c4_move_into_descendant_deletes_subtree :
    moveItem exMoveTree "g1" "g2" 0 = .mk "root4" .and [] false none ∧
    countGroups exMoveTree = 3 ∧
    countGroups (moveItem exMoveTree "g1" "g2" 0) = 1 ∧
    moveItem exMoveTree "g1" "g2" 0 ≠ exMoveTree ∧
    moveItem exMoveTree "missing" "g2" 0 = exMoveTree :=
  ⟨rfl, rfl, rfl,
   fun h => absurd (congrArg countGroups h) (by decide), rfl⟩

/-- C5 counterexample: `updateRule` substitutes the supplied rule object
wholesale, so a replacement carrying the different id `zz` leaves no node
with the addressed id `b` in the tree. -/
theorem c5_counterexample :
    findRule exUpdateTree "b" = some exEdgeRule2 ∧
    findRule (updateRule exUpdateTree "b" exReplacement) "b" = none ∧
    (updateRule exUpdateTree "b" exReplacement).rules = [.rule exReplacement] :=
  ⟨rfl, rfl, rfl⟩

/-- C5 (amended): `updateGroup` preserves the addressed group's id — and
every other node id — even when the patch carries a different id
(provided the patch does not replace the children array wholesale), and
the addressed group remains findable; `updateRule` replaces the node
wholesale, so the addressed id survives exactly when the replacement
carries the same id, and rules with any other id are untouched. -/
theorem c5_update_preserves_id :
    (∀ (g : RuleGroup) (p : GroupPatch), (applyGroupPatch g p).id = g.id) ∧
    (∀ (t : RuleGroup) (gid : String) (p : GroupPatch), p.rules = none →
      idsOfGroup (updateGroup t gid p) = idsOfGroup t) ∧
    (∀ (t : RuleGroup) (gid : String) (p : GroupPatch),
      (findGroup t gid).isSome = true →
      (findGroup (updateGroup t gid p) gid).isSome = true) ∧
    (∀ (t : RuleGroup) (rid : String) (r : Rule) (j : String), j ≠ rid → j ≠ r.id →
      findRule (updateRule t rid r) j = findRule t j) ∧
    (∀ (t : RuleGroup) (rid : String) (r : Rule), r.id = rid →
      (findRule t rid).isSome = true → findRule (updateRule t rid r) rid = some r) :=
  ⟨fun g p => by cases g with | mk i c rs n ic => rfl,
   fun t gid p hp => updateGroup_ids gid p hp t,
   fun t gid p h => updateGroup_find_isSome gid p t h,
   fun t rid r j h1 h2 => updateRule_find_other rid r j h1 h2 t,
   fun t rid r hr h => updateRule_find_self rid r hr t h⟩

/-- C5 witness: the five parts evaluated on concrete trees, patches with a
foreign id included. -/
theorem c5_update_preserves_id_witness :
    (applyGroupPatch exEmptyGroup { id := some "zz" }).id = exEmptyGroup.id ∧
    idsOfGroup (updateGroup exUpdateTree "root5" { id := some "zz" }) =
      idsOfGroup exUpdateTree ∧
    (findGroup (updateGroup exUpdateTree "root5" { id := some "zz" }) "root5").isSome
      = true ∧
    findRule (updateRule exUpdateTree "b" exReplacement) "nope" =
      findRule exUpdateTree "nope" ∧
    findRule (updateRule exUpdateTree "b" { exEdgeRule2 with value := .num 7 }) "b" =
      some { exEdgeRule2 with value := .num 7 } :=
  ⟨c5_update_preserves_id.1 exEmptyGroup { id := some "zz" },
   c5_update_preserves_id.2.1 exUpdateTree "root5" { id := some "zz" } rfl,
   c5_update_preserves_id.2.2.1 exUpdateTree "root5" { id := some "zz" } (by decide),
   c5_update_preserves_id.2.2.2.1 exUpdateTree "b" exReplacement "nope"
     (by decide) (by decide),
   c5_update_preserves_id.2.2.2.2 exUpdateTree "b" { exEdgeRule2 with value := .num 7 }
     rfl (by decide)⟩

/-- C6 counterexample: a tree with zero conditions anywhere whose root has
one (empty-group) child is reported exportable by every backend. -/
theorem c6_counterexample :
    countRules exZeroCondTree = 0 ∧ isEmptyRuleTree exZeroCondTree = true ∧
    canExportToFormat exZeroCondTree .sql = true ∧
    canExportToFormat exZeroCondTree .mongodb = true ∧
    canExportToFormat exZeroCondTree .readable = true :=
  ⟨rfl, rfl, rfl, rfl, rfl⟩

/-- C6 (amended): `canExportToFormat` returns false exactly when the
root's own children array is empty; in particular every tree containing
at least one condition exports as true — but so does a condition-free
tree whose root has group children. -/
theorem c6_can_export :
    ∀ (g : RuleGroup) (format : ExportFormat),
      (canExportToFormat g format = false ↔ g.rules = []) ∧
      (countRules g ≠ 0 → canExportToFormat g format = true) := by
  intro g format
  cases g with
  | mk i c rs n ic =>
      constructor
      · simp [canExportToFormat]
      · intro h
        cases rs with
        | nil => exact absurd rfl h
        | cons z zs => simp [canExportToFormat]

/-- C6 witness: the export predicate evaluated on the two-condition tree. -/
theorem c6_can_export_witness :
    canExportToFormat exTree .sql = true :=
  (c6_can_export exTree .sql).2 (by decide)

/-- C7: `validateRuleStructure` reports `isValid = true` exactly when the
produced findings contain none of severity `error`; a group with zero
children contributes exactly one finding, of severity `warning`, so a
tree whose root is an empty group is reported valid. -/
theorem c7_is_valid_iff_no_error_findings :
    (∀ (t : RuleGroup) (fields : List FieldConfig),
      (validateRuleStructure t fields).isValid = true ↔
        ∀ e ∈ (validateRuleStructure t fields).errors, e.severity ≠ Severity.error) ∧
    (∀ (g : RuleGroup) (fields : List FieldConfig) (path : List String), g.rules = [] →
      validateRuleGroup g fields path =
        [{ id := g.id ++ "-empty", type := .group, severity := .warning,
           message := "Rule group is empty", path := path ++ [g.id],
           suggestions := some ["Add at least one rule or condition to this group"] }]) ∧
    (∀ (g : RuleGroup) (fields : List FieldConfig), g.rules = [] →
      (validateRuleStructure g fields).isValid = true) := by
  refine ⟨?_, ?_, ?_⟩
  · intro t fields
    show (((validateRuleGroup t fields).filter
        (fun e => e.severity == Severity.error)).length == 0) = true ↔ _
    simp [List.length_eq_zero, List.filter_eq_nil_iff, beq_eq_false_iff_ne,
      show (validateRuleStructure t fields).errors = validateRuleGroup t fields from rfl]
  · intro g fields path hrs
    cases g with
    | mk i c rs n ic => cases hrs; rfl
  · intro g fields hrs
    cases g with
    | mk i c rs n ic => cases hrs; rfl

/-- C7 witness: the equivalence and the empty-group warning evaluated on
the empty root group. -/
theorem c7_is_valid_iff_no_error_findings_witness :
    ((validateRuleStructure exEmptyGroup exFields).isValid = true ↔
      ∀ e ∈ (validateRuleStructure exEmptyGroup exFields).errors,
        e.severity ≠ Severity.error) ∧
    validateRuleGroup exEmptyGroup exFields [] =
      [{ id := exEmptyGroup.id ++ "-empty", type := .group, severity := .warning,
         message := "Rule group is empty", path := [] ++ [exEmptyGroup.id],
         suggestions := some ["Add at least one rule or condition to this group"] }] ∧
    (validateRuleStructure exEmptyGroup exFields).isValid = true :=
  ⟨c7_is_valid_iff_no_error_findings.1 exEmptyGroup exFields,
   c7_is_valid_iff_no_error_findings.2.1 exEmptyGroup exFields [] rfl,
   c7_is_valid_iff_no_error_findings.2.2 exEmptyGroup exFields rfl⟩

/-- C8: cloning copies every field except the ids — a cloned rule is the
original with the next generated id, and a cloned subtree erases to the
same id-free tree as the original; assuming the ids the supply generates
are fresh for the whole original tree, the clone's id set is disjoint
from the tree's. -/
theorem c8_clone_fresh_and_shape :
    (∀ (gen : Nat → String) (r : Rule) (k : Nat),
      (cloneRule gen k r).1 = { r with id := gen k }) ∧
    (∀ (gen : Nat → String) (g : RuleGroup) (k : Nat),
      eraseIds (cloneRuleGroup gen k g).1 = eraseIds g) ∧
    (∀ (gen : Nat → String) (g : RuleGroup) (k : Nat) (treeIds : List String),
      (∀ x ∈ (List.range' k (nodeCount g)).map gen, x ∉ treeIds) →
      ∀ x ∈ idsOfGroup (cloneRuleGroup gen k g).1, x ∉ treeIds) :=
  ⟨fun _ _ _ => rfl,
   fun gen g k => (cloneRuleGroup_spec gen g k).2.2,
   fun gen g k treeIds h => by
     rw [(cloneRuleGroup_spec gen g k).2.1]
     exact h⟩

/-- C8 witness: clone shape and freshness evaluated with a concrete id
supply over the nested-group fixture. -/
theorem c8_clone_fresh_and_shape_witness :
    (cloneRule exGen 5 exRuleAge).1 = { exRuleAge with id := exGen 5 } ∧
    eraseIds (cloneRuleGroup exGen 0 exOuterGroup).1 = eraseIds exOuterGroup ∧
    ∀ x ∈ idsOfGroup (cloneRuleGroup exGen 0 exOuterGroup).1,
      x ∉ idsOfGroup exMoveTree :=
  ⟨c8_clone_fresh_and_shape.1 exGen exRuleAge 5,
   c8_clone_fresh_and_shape.2.1 exGen exOuterGroup 0,
   c8_clone_fresh_and_shape.2.2 exGen exOuterGroup 0 (idsOfGroup exMoveTree)
     (by decide)⟩

/-- C9 counterexample: a group holding one condition followed by one empty
group renders with a trailing connector, not as the condition's text
alone. -/
theorem c9_counterexample :
    formatRuleGroupToSQL exTrailTree exFields = "age > 18 AND " ∧
    formatRuleToSQL exRuleAge exFields = "age > 18" ∧
    formatRuleGroupToReadableString exTrailTree exFields = "Age is greater than 18 AND " ∧
    formatRuleGroupToSQL exTrailTree exFields ≠ formatRuleToSQL exRuleAge exFields :=
  ⟨rfl, rfl, rfl, by decide⟩

/-- C9 (amended): a group with zero children renders as the backend's
empty string, and a child rendering to the empty string contributes
neither text nor connector; but the connector follows every non-empty
child that is not at the last index of the children array, even when
every later child renders empty — leaving a trailing connector in that
case. -/
theorem c9_child_rendering :
    (∀ (fields : List FieldConfig) (g : RuleGroup), g.rules = [] →
      formatRuleGroupToReadableString g fields = "" ∧ formatRuleGroupToSQL g fields = "") ∧
    (∀ (fields : List FieldConfig) (gc : Combinator) (x : RuleItem) (rest : List RuleItem),
      readableItemString fields x = "" →
      readableParts fields gc (x :: rest) = readableParts fields gc rest) ∧
    (∀ (fields : List FieldConfig) (gc : Combinator) (x : RuleItem) (rest : List RuleItem),
      sqlItemString fields x = "" →
      sqlParts fields gc (x :: rest) = sqlParts fields gc rest) ∧
    (∀ (fields : List FieldConfig) (i : String) (gc : Combinator) (ic : Option Combinator)
       (x : RuleItem) (rest : List RuleItem),
      sqlItemString fields x ≠ "" → rest ≠ [] →
      (∀ y ∈ rest, sqlItemString fields y = "") →
      formatRuleGroupToSQL (.mk i gc (x :: rest) false ic) fields =
        sqlItemString fields x ++ (" " ++ (effectiveConnector x gc).upper ++ " ")) := by
  refine ⟨?_, ?_, ?_, ?_⟩
  · intro fields g hrs
    cases g with
    | mk i c rs n ic =>
        cases hrs
        exact ⟨rfl, rfl⟩
  · intro fields gc x rest hx
    simp only [readableParts]
    rw [if_pos hx]
  · intro fields gc x rest hx
    simp only [sqlParts]
    rw [if_pos hx]
  · intro fields i gc ic x rest hx hrest hall
    obtain ⟨y, ys, rfl⟩ := List.exists_cons_of_ne_nil hrest
    show (if (x :: y :: ys).isEmpty = true then "" else
        String.join (sqlParts fields gc (x :: y :: ys))) = _
    simp only [List.isEmpty_cons, if_false]
    have hstep : sqlParts fields gc (x :: y :: ys) =
        sqlItemString fields x :: (" " ++ (effectiveConnector x gc).upper ++ " ") ::
          sqlParts fields gc (y :: ys) := by
      simp only [sqlParts]
      rw [if_neg hx]
      rfl
    rw [hstep, sqlParts_nil_of_empty_parts fields gc (y :: ys) hall]
    simp [String.join]

/-- C9 witness: the trailing-connector shape, the empty-group rendering
and the empty-child skip evaluated on concrete trees. -/
theorem c9_child_rendering_witness :
    formatRuleGroupToSQL (.mk "root9" .and [.rule exRuleAge, .group exEmptyGroup] false none)
        exFields =
      sqlItemString exFields (.rule exRuleAge) ++
        (" " ++ (effectiveConnector (.rule exRuleAge) .and).upper ++ " ") ∧
    (formatRuleGroupToReadableString exEmptyGroup exFields = "" ∧
      formatRuleGroupToSQL exEmptyGroup exFields = "") ∧
    sqlParts exFields .and [.group exEmptyGroup, .rule exRuleAge] =
      sqlParts exFields .and [.rule exRuleAge] :=
  ⟨c9_child_rendering.2.2.2 exFields "root9" .and none (.rule exRuleAge) [.group exEmptyGroup]
      (by decide) (by simp) (by decide),
   c9_child_rendering.1 exFields exEmptyGroup rfl,
   c9_child_rendering.2.2.1 exFields .and (.group exEmptyGroup) [.rule exRuleAge] (by decide)⟩

/-- C10: when exactly one child of a group produces a non-empty Mongo
query, `formatRuleGroupToMongoDB` returns that query directly, wrapped in
`$not` exactly when the group is negated; a `$and`/`$or` wrapper (over
the full collected list) appears exactly when two or more children
produce non-empty queries. -/
theorem c10_mongo_single_child :
    (∀ (fields : List FieldConfig) (g : RuleGroup) (q : MVal),
      (mongoCollect fields g.combinator g.rules).1 = [q] →
      formatRuleGroupToMongoDB g fields = if g.negate then .obj [("$not", q)] else q) ∧
    (∀ (fields : List FieldConfig) (g : RuleGroup),
      2 ≤ (mongoCollect fields g.combinator g.rules).1.length →
      ∃ op, (op = "$and" ∨ op = "$or") ∧
        formatRuleGroupToMongoDB g fields =
          (if g.negate then
            MVal.obj [("$not", .obj [(op, .arr (mongoCollect fields g.combinator g.rules).1)])]
           else .obj [(op, .arr (mongoCollect fields g.combinator g.rules).1)])) := by
  constructor
  · intro fields g q hq
    cases g with
    | mk i gc rs n ic =>
        simp only [RuleGroup.combinator_mk, RuleGroup.rules_mk] at hq
        cases rs with
        | nil => simp [mongoCollect] at hq
        | cons x rest =>
            simp only [formatRuleGroupToMongoDB, List.isEmpty_cons, if_false]
            rw [hq]
            simp
  · intro fields g hlen
    cases g with
    | mk i gc rs n ic =>
        simp only [RuleGroup.combinator_mk, RuleGroup.rules_mk] at hlen ⊢
        cases rs with
        | nil => simp [mongoCollect] at hlen
        | cons x rest =>
            obtain ⟨q1, qs1, hq⟩ :
                ∃ q1 qs1, (mongoCollect fields gc (x :: rest)).1 = q1 :: qs1 := by
              cases hqs : (mongoCollect fields gc (x :: rest)).1 with
              | nil => rw [hqs] at hlen; simp at hlen
              | cons a l => exact ⟨a, l, rfl⟩
            obtain ⟨q2, qs2, hq2⟩ : ∃ q2 qs2, qs1 = q2 :: qs2 := by
              cases hqs : qs1 with
              | nil => rw [hq, hqs] at hlen; simp at hlen
              | cons a l => exact ⟨a, l, rfl⟩
            refine ⟨match (mongoCollect fields gc (x :: rest)).2 with
                    | [] => "$or"
                    | c0 :: _ =>
                        if (mongoCollect fields gc (x :: rest)).2.all (fun c => c = c0) then
                          c0.mongoOp
                        else gc.mongoOp, ?_, ?_⟩
            · cases hcs : (mongoCollect fields gc (x :: rest)).2 with
              | nil => simp
              | cons c0 cs0 =>
                  simp only
                  split
                  · cases c0 <;> simp [Combinator.mongoOp]
                  · cases gc <;> simp [Combinator.mongoOp]
            · simp only [formatRuleGroupToMongoDB, List.isEmpty_cons, if_false,
                RuleGroup.negate_mk]
              rw [hq, hq2]
              cases hcs : (mongoCollect fields gc (x :: rest)).2 with
              | nil => cases n <;> rfl
              | cons c0 cs0 =>
                  by_cases hall : ((c0 :: cs0).all fun c => decide (c = c0)) = true
                  · cases n <;> simp [hall]
                  · cases n <;> simp [hall]

/-- C10 witness: the single-child and multi-child cases evaluated on a
negated one-condition group and the two-condition tree. -/
theorem c10_mongo_single_child_witness :
    (formatRuleGroupToMongoDB exNegSingleTree exFields =
      if exNegSingleTree.negate then
        MVal.obj [("$not", formatRuleToMongoDB exRuleAge exFields)]
      else formatRuleToMongoDB exRuleAge exFields) ∧
    ∃ op, (op = "$and" ∨ op = "$or") ∧
      formatRuleGroupToMongoDB exTree exFields =
        (if exTree.negate then
          MVal.obj [("$not", .obj [(op, .arr (mongoCollect exFields exTree.combinator exTree.rules).1)])]
         else .obj [(op, .arr (mongoCollect exFields exTree.combinator exTree.rules).1)]) :=
  ⟨c10_mongo_single_child.1 exFields exNegSingleTree
      (formatRuleToMongoDB exRuleAge exFields) rfl,
   c10_mongo_single_child.2 exFields exTree (by decide)⟩
